import Mathlib

/-!
Shallow embedding of `vendor/github.com/containers/storage/images.go`
(the image metadata store of containers/storage, vendored by
containers-common), together with proofs of the specified properties.

Modelling conventions:
* Go maps are modelled as association lists (`List (String × _)`).
  The order of an association list stands for Go's unspecified map
  iteration order: two association lists that differ only in order
  represent the same Go map.
* Go pointers to `Image` records are modelled by the record's `ID`
  string; the authoritative `images` slice holds the record values.
  Store states of interest have pairwise distinct IDs (enforced by
  the `wellFormed` predicate), which makes this identification exact.
* String prefix tests (`strings.HasPrefix`) are computed on the
  character list of the string, so that every definition evaluates
  inside the kernel.
* File-system effects (blob writes, snapshot writes) are modelled by
  explicit result flags; I/O failures are not modelled.
-/

namespace ContainersStorage

/-- Digest strings, as in `github.com/opencontainers/go-digest`.  The empty
string is the zero value, meaning "unset". -/
abbrev DigestStr := String

/-- Go's `strings.HasPrefix pre s` (argument order: pattern first). -/
def strHasPref (pre s : String) : Bool :=
  pre.data.isPrefixOf s.data

def isHexDigitCh (c : Char) : Bool := c.isDigit || ('a' ≤ c && c ≤ 'f')

/-- Modelled from the spec: the consumed digest abstraction's format
validation ("a digest abstraction offering format validation") for the
canonical algorithm: `sha256:` followed by 64 lower-case hex digits.
The source only calls `digest.Validate`, whose implementation is not part
of this repository's sources. -/
def digestValid (d : DigestStr) : Bool :=
  strHasPref "sha256:" d && ((d.data.drop 7).length == 64) && (d.data.drop 7).all isHexDigitCh

/-- The `Image` record of images.go.  `Flags` has dynamic values in Go
(`map[string]interface{}`); no property below inspects flag values, so they
are modelled as strings.  `Created` (a `time.Time`) is modelled as a `Nat`
tick count, whose zero value means "unknown". -/
structure Image where
  ID : String
  Digest : DigestStr
  Digests : List DigestStr
  Names : List String
  NamesHistory : List String
  TopLayer : String
  MappedTopLayers : List String
  Metadata : String
  BigDataNames : List String
  BigDataSizes : List (String × Int)
  BigDataDigests : List (String × DigestStr)
  Created : Nat
  ReadOnly : Bool
  Flags : List (String × String)
deriving Repr, DecidableEq

def emptyImage : Image :=
  { ID := "", Digest := "", Digests := [], Names := [], NamesHistory := []
    TopLayer := "", MappedTopLayers := [], Metadata := "", BigDataNames := []
    BigDataSizes := [], BigDataDigests := [], Created := 0, ReadOnly := false
    Flags := [] }

instance : Inhabited Image := ⟨emptyImage⟩

/-! Association-list primitives standing for Go map reads and writes. -/

def lookupA {α : Type} : List (String × α) → String → Option α
  | [], _ => none
  | p :: rest, k => if p.1 = k then some p.2 else lookupA rest k

/-- Go map assignment `m[k] = v`: replace the binding if present, else add. -/
def insertA {α : Type} : List (String × α) → String → α → List (String × α)
  | [], k, v => [(k, v)]
  | p :: rest, k, v => if p.1 = k then (k, v) :: rest else p :: insertA rest k v

/-- Go map deletion `delete(m, k)`. -/
def eraseA {α : Type} (l : List (String × α)) (k : String) : List (String × α) :=
  l.filter (fun p => decide (p.1 ≠ k))

/-! Digest recomputation (`Image.recomputeDigests`, images.go lines 205-243). -/

/-- `bigDataNameIsManifest` from images.go: a big data item is a manifest
when its name begins with `ImageDigestManifestBigDataNamePrefix`, the
string literal `"manifest"`. -/
def bigDataNameIsManifest (name : String) : Bool :=
  strHasPref "manifest" name

/-- The `for name, digest := range i.BigDataDigests` loop of
`recomputeDigests`: validate manifest-named digests and append each to the
accumulated `validDigests` list unless already present (deduplication by
value, first-seen order).  The association list's order stands for the Go
map's iteration order. -/
def recomputeAux : List (String × DigestStr) → List DigestStr → Except String (List DigestStr)
  | [], acc => .ok acc
  | (name, d) :: rest, acc =>
    if bigDataNameIsManifest name = false then recomputeAux rest acc
    else if digestValid d = false then .error "validating digest for big data item"
    else if d ∈ acc then recomputeAux rest acc
    else recomputeAux rest (acc ++ [d])

/-- Core of `Image.recomputeDigests`, split out so that its independence of
every `Image` field other than `Digest` and `BigDataDigests` is visible:
returns the new `(Digest, Digests)` pair.  When the fixed digest is unset
and the computed list is empty, `List.headD` returns the empty string, i.e.
the digest stays unset, exactly as in the source. -/
def recomputeCore (d0 : DigestStr) (bdd : List (String × DigestStr)) :
    Except String (DigestStr × List DigestStr) :=
  if d0 = "" then
    match recomputeAux bdd [] with
    | .error e => .error e
    | .ok valid => .ok (valid.headD "", valid)
  else
    if digestValid d0 = false then .error "validating image digest"
    else
      match recomputeAux bdd [d0] with
      | .error e => .error e
      | .ok valid => .ok (d0, valid)

/-- `Image.recomputeDigests` (images.go lines 215-243). -/
def recomputeDigests (i : Image) : Except String Image :=
  match recomputeCore i.Digest i.BigDataDigests with
  | .error e => .error e
  | .ok (d, ds) => .ok { i with Digest := d, Digests := ds }

/-- Projection: did `recomputeDigests` succeed. -/
def recIsOk (i : Image) : Bool := (recomputeDigests i).isOk

/-- Projection: the `Digest` field after recomputation (empty on error). -/
def recDigest (i : Image) : DigestStr :=
  match recomputeDigests i with
  | .ok r => r.Digest
  | .error _ => ""

/-- Projection: the `Digests` field after recomputation (empty on error). -/
def recDigestList (i : Image) : List DigestStr :=
  match recomputeDigests i with
  | .ok r => r.Digests
  | .error _ => []

/-! Concrete digest values used by witnesses and counterexamples. -/

def dA : DigestStr := "sha256:aaaaaaaaaaaaaaaaaaaaaaaaaaaaaaaaaaaaaaaaaaaaaaaaaaaaaaaaaaaaaaaa"
def dB : DigestStr := "sha256:bbbbbbbbbbbbbbbbbbbbbbbbbbbbbbbbbbbbbbbbbbbbbbbbbbbbbbbbbbbbbbbb"
def dC : DigestStr := "sha256:cccccccccccccccccccccccccccccccccccccccccccccccccccccccccccccccc"

/-- An image whose big-data digest cache holds exactly the two entries
`{"manifest": dA, "manifest-arch": dB}`, written in the iteration order
that lists `"manifest-arch"` first (Go does not fix the order). -/
def imgC1 : Image :=
  { emptyImage with BigDataDigests := [("manifest-arch", dB), ("manifest", dA)] }

/-- The same two-entry cache in the other iteration order. -/
def imgC1good : Image :=
  { emptyImage with BigDataDigests := [("manifest", dA), ("manifest-arch", dB)] }

/-- Witness image for the digest invariants: a fixed digest plus one
manifest big-data entry. -/
def imgC7 : Image := { emptyImage with Digest := dA, BigDataDigests := [("manifest", dB)] }

/-! The image store (`imageStore` of images.go) and its operations. -/

inductive StoreErr
  | readOnly
  | notLocked
  | duplicateID
  | duplicateName
  | imageUnknown
  | digestUnknown
  | invalidDigest
  | duplicateImageNames
  | invalidBigDataName
  | digestError
deriving Repr, DecidableEq

/-- The `imageStore` struct: the authoritative ordered list plus the
derived lookup structures; the session's lock state is modelled by the two
booleans `rw` (`IsReadWrite`) and `locked` (`Locked`).  `byid` is the key
set of the by-ID map (the mapped record is the list entry with that ID),
`byname` maps a name to the ID of its record, `bydigest` maps a digest to
the IDs of its bucket. -/
structure ImageStore where
  images : List Image
  idindex : List String
  byid : List String
  byname : List (String × String)
  bydigest : List (DigestStr × List String)
  rw : Bool
  locked : Bool
deriving Repr, DecidableEq

/-- Dereference a record pointer (modelled by its ID) in the authoritative
list. -/
def getImage (st : ImageStore) (ident : String) : Option Image :=
  st.images.find? (fun i => decide (i.ID = ident))

/-- Modelled from the spec: `truncindex.Get` resolves a nonempty prefix
matching exactly one indexed ID to that ID ("resolves an unambiguous
truncated ID prefix to its full ID"); the prefix-index collaborator's code
is not part of this repository's sources. -/
def truncGet (ids : List String) (s : String) : Option String :=
  if s = "" then none
  else
    match ids.filter (fun i => strHasPref s i) with
    | [full] => some full
    | _ => none

/-- Modelled from the spec: `truncindex.Add`, with invalid (empty) and
duplicate entries ignored ("invalid/duplicate entries during (re)build are
ignored rather than treated as fatal"). -/
def truncAdd (ids : List String) (id : String) : List String :=
  if id = "" ∨ id ∈ ids then ids else ids ++ [id]

/-- Modelled from the spec: `truncindex.Delete`, best-effort removal. -/
def truncDelete (ids : List String) (id : String) : List String :=
  ids.filter (fun i => decide (i ≠ id))

/-- `imageStore.lookup` (images.go 363-373): exact ID, then exact name,
then unambiguous ID prefix; returns the record pointer (modelled by the
record's ID). -/
def lookupId (st : ImageStore) (id : String) : Option String :=
  if id ∈ st.byid then some id
  else
    match lookupA st.byname id with
    | some ident => some ident
    | none =>
      match truncGet st.idindex id with
      | some longid => if longid ∈ st.byid then some longid else none
      | none => none

/-- `imageStore.Exists` (images.go 589-592). -/
def existsImage (st : ImageStore) (id : String) : Bool :=
  (lookupId st id).isSome

/-- `imageStore.Get` (images.go 582-587); the returned defensive copy is
the record value itself in this value-semantics model. -/
def Get (st : ImageStore) (id : String) : Option Image :=
  (lookupId st id).bind (getImage st)

/-- Modelled from the spec: `dedupeNames` removes duplicates preserving
first occurrence (the helper lives outside the provided sources; `Names`
and `NamesHistory` are specified as duplicate-free). -/
def dedupeNames (names : List String) : List String :=
  names.foldl (fun acc n => if n ∈ acc then acc else acc ++ [n]) []

/-- `stringutils`-style helper used by `removeName`: remove every
occurrence of a value from a string slice. -/
def stringSliceWithoutValue (l : List String) (v : String) : List String :=
  l.filter (fun n => decide (n ≠ v))

/-- `imageStore.removeName` (images.go 500-502), acting on a record value. -/
def removeNameI (i : Image) (name : String) : Image :=
  { i with Names := stringSliceWithoutValue i.Names name }

/-- `Image.addNameToHistory` (images.go 504-506): prepend, then dedupe. -/
def addNameToHistory (i : Image) (name : String) : Image :=
  { i with NamesHistory := dedupeNames (name :: i.NamesHistory) }

/-- The guard of `imageStore.Save` (images.go 297-303): a read-only session
or a lock not held for writing refuses to persist; file I/O failures are
outside the model. -/
def saveErr (st : ImageStore) : Option StoreErr :=
  if st.rw = false then some .readOnly
  else if st.locked = false then some .notLocked
  else none

/-- One record as it appears in the persisted snapshot document: the
fields tagged `json:"-"` (`Digests`, `ReadOnly`) are not serialized. -/
def serializeImage (i : Image) : Image :=
  { i with Digests := [], ReadOnly := false }

/-- `imageStore.Save` (images.go 297-316) as a pure document: the
serialized ordered record list, or the error of the write guard. -/
def saveSnapshot (st : ImageStore) : Except StoreErr (List Image) :=
  if st.rw = false then .error .readOnly
  else if st.locked = false then .error .notLocked
  else .ok (st.images.map serializeImage)

/-- Go map-of-slices append `r.bydigest[d] = append(r.bydigest[d], img)`. -/
def appendToBucket (m : List (DigestStr × List String)) (d : DigestStr) (ident : String) :
    List (DigestStr × List String) :=
  match lookupA m d with
  | some bucket => insertA m d (bucket ++ [ident])
  | none => m ++ [(d, [ident])]

/-- `imageSliceWithoutValue` (images.go 657-666) on pointer surrogates:
remove every occurrence of the record's identity. -/
def imageSliceWithoutValue (slice : List String) (value : String) : List String :=
  slice.filter (fun i => decide (i ≠ value))

/-- Prune one image out of a digest bucket, dropping the bucket when it
becomes empty (`imageSliceWithoutValue` plus the empty check, images.go
557-564 and 721-731). -/
def pruneBucket (m : List (DigestStr × List String)) (d : DigestStr) (ident : String) :
    List (DigestStr × List String) :=
  match lookupA m d with
  | some bucket =>
    if imageSliceWithoutValue bucket ident = [] then eraseA m d
    else insertA m d (imageSliceWithoutValue bucket ident)
  | none => m

/-- Add the image to a digest bucket unless already present (the
`len(list) == len(imageSliceWithoutValue(list, image))` test of images.go
735-744). -/
def addIfMissing (m : List (DigestStr × List String)) (d : DigestStr) (ident : String) :
    List (DigestStr × List String) :=
  let list := (lookupA m d).getD []
  if list.length = (imageSliceWithoutValue list ident).length
  then insertA m d (list ++ [ident]) else m

/-- Select the first generated candidate ID not already in use: the
`stringid.GenerateRandomID` retry loop of `Create` (images.go 406-413),
with the external random generator modelled as a candidate stream. -/
def pickFreshId (byid : List String) : List String → Option String
  | [] => none
  | c :: rest => if c ∈ byid then pickFreshId byid rest else some c

/-- `imageStore.Create` (images.go 402-459).  Returns the resulting store,
the created record (Go returns a defensive copy), and the error if any; an
early validation failure returns the store unchanged.  The unreachable
exhaustion of the candidate stream (Go retries forever) is mapped to the
duplicate-ID error. -/
def Create (st : ImageStore) (genIds : List String) (id : String) (names : List String)
    (layer metadata : String) (created now : Nat) (searchableDigest : DigestStr) :
    ImageStore × Option Image × Option StoreErr :=
  if st.rw = false then (st, none, some .readOnly)
  else
    match (if id = "" then pickFreshId st.byid genIds else some id) with
    | none => (st, none, some .duplicateID)
    | some id =>
      if id ∈ st.byid then (st, none, some .duplicateID)
      else
        let names := dedupeNames names
        if names.any (fun n => (lookupA st.byname n).isSome) then (st, none, some .duplicateName)
        else
          let created := if created = 0 then now else created
          let image : Image :=
            { ID := id, Digest := searchableDigest, Digests := [], Names := names
              NamesHistory := [], TopLayer := layer, MappedTopLayers := []
              Metadata := metadata, BigDataNames := [], BigDataSizes := []
              BigDataDigests := [], Created := created, ReadOnly := false, Flags := [] }
          match recomputeDigests image with
          | .error _ => (st, none, some .invalidDigest)
          | .ok image =>
            let st' : ImageStore :=
              { st with
                images := st.images ++ [image]
                idindex := truncAdd st.idindex id
                byid := st.byid ++ [id]
                byname := names.foldl (fun m n => insertA m n id) st.byname
                bydigest := image.Digests.foldl (fun m d => appendToBucket m d id) st.bydigest }
            (st', some image, saveErr st)

/-- The scan of `Delete` looking for the record's index: Go iterates the
whole list keeping the last match (images.go 544-549). -/
def lastIdxOfAux : List Image → String → Nat → Option Nat → Option Nat
  | [], _, _, acc => acc
  | a :: rest, ident, k, acc =>
    lastIdxOfAux rest ident (k + 1) (if a.ID = ident then some k else acc)

def lastIdxOf (imgs : List Image) (ident : String) : Option Nat :=
  lastIdxOfAux imgs ident 0 none

/-- `imageStore.Delete` (images.go 535-580).  The best-effort removal of
the blob directory is outside the model; the snapshot-write guard error is
returned as in `Save`. -/
def Delete (st : ImageStore) (id : String) : ImageStore × Option StoreErr :=
  if st.rw = false then (st, some .readOnly)
  else
    match lookupId st id with
    | none => (st, some .imageUnknown)
    | some ident =>
      match getImage st ident with
      | none => (st, some .imageUnknown)
      | some image =>
        let images := match lastIdxOf st.images ident with
          | some k => st.images.eraseIdx k
          | none => st.images
        ({ st with
            images := images
            idindex := truncDelete st.idindex ident
            byid := st.byid.filter (fun i => decide (i ≠ ident))
            byname := image.Names.foldl (fun m n => eraseA m n) st.byname
            bydigest := image.Digests.foldl (fun m d => pruneBucket m d ident) st.bydigest },
          saveErr st)

/-- `imageStore.ByDigest` (images.go 594-599): the bucket's records (as
copies), or image-unknown when the digest is not a key of the index. -/
def ByDigest (st : ImageStore) (d : DigestStr) : Except StoreErr (List Image) :=
  match lookupA st.bydigest d with
  | some bucket => .ok (bucket.filterMap (getImage st))
  | none => .error .imageUnknown

inductive UpdateNameOperation
  | setNames
  | addNames
  | removeNames
deriving Repr, DecidableEq

/-- Modelled from the spec: `applyNameOperation` applies "an
add/replace/remove operation against the existing name set"; the helper's
code lives outside the provided sources.  Replace and add deduplicate
(`Names` is specified duplicate-free); remove filters out the given
names. -/
def applyNameOperation (oldNames names : List String) : UpdateNameOperation → List String
  | .setNames => dedupeNames names
  | .addNames => dedupeNames (oldNames ++ names)
  | .removeNames => oldNames.filter (fun n => decide (n ∉ names))

/-- Mutation through a record pointer: rewrite the record with this
identity in the authoritative list. -/
def updateImageAt (imgs : List Image) (ident : String) (f : Image → Image) : List Image :=
  imgs.map (fun i => if i.ID = ident then f i else i)

/-- One iteration of the name-registration loop of `updateNames`
(images.go 524-530): detach the name from any other current holder
(`removeName(otherImage, name)`), register it in the by-name index, and
record it in the image's name history. -/
def updateNamesStep (ident : String) (p : List Image × List (String × String))
    (n : String) : List Image × List (String × String) :=
  let imgs := match lookupA p.2 n with
    | some other => updateImageAt p.1 other (fun o => removeNameI o n)
    | none => p.1
  (updateImageAt imgs ident (fun o => addNameToHistory o n), insertA p.2 n ident)

/-- `imageStore.updateNames` (images.go 508-533): delete the old names
from the by-name index, then for each new name detach it from any other
holder, register it, and record it in the history; finally install the new
name list and save. -/
def updateNames (st : ImageStore) (id : String) (names : List String)
    (op : UpdateNameOperation) : ImageStore × Option StoreErr :=
  if st.rw = false then (st, some .readOnly)
  else
    match lookupId st id with
    | none => (st, some .imageUnknown)
    | some ident =>
      match getImage st ident with
      | none => (st, some .imageUnknown)
      | some image =>
        let newNames := applyNameOperation image.Names names op
        let byname0 := image.Names.foldl (fun m n => eraseA m n) st.byname
        let q := newNames.foldl (updateNamesStep ident) (st.images, byname0)
        let imgs := updateImageAt q.1 ident (fun o => { o with Names := newNames })
        ({ st with images := imgs, byname := q.2 }, saveErr st)

/-- Effects of a `SetBigData` call that are otherwise invisible in the
resulting state: whether the blob file was written, and whether the
snapshot was saved. -/
structure SetBigDataEffects where
  blobWritten : Bool
  saved : Bool
deriving Repr, DecidableEq

def hexDigitCh (n : Nat) : Char :=
  if n < 10 then Char.ofNat (48 + n) else Char.ofNat (87 + n)

def hexChars : Nat → Nat → List Char
  | 0, _ => []
  | k + 1, v => hexChars k (v / 16) ++ [hexDigitCh (v % 16)]

/-- Modelled from the spec: `digest.Canonical.FromBytes`, "a standard
content hash" over the blob bytes; the hash function itself is an external
collaborator, modelled as the hex encoding of a byte accumulator, which
yields a syntactically valid canonical digest. -/
def canonicalFromBytes (data : List Nat) : DigestStr :=
  "sha256:" ++ String.mk (hexChars 64 (data.foldl (fun a b => (a * 256 + b % 256) % (2 ^ 256)) 0))

/-- The digest of a big-data item (images.go 683-693): manifest-named keys
require the caller-supplied digest callback (`nil` fails with
digest-unknown), other keys use the canonical content hash. -/
def computeBigDataDigest (key : String) (data : List Nat)
    (digestManifest : Option (List Nat → Except String DigestStr)) :
    Except StoreErr DigestStr :=
  if bigDataNameIsManifest key then
    match digestManifest with
    | none => .error .digestUnknown
    | some f =>
      match f data with
      | .error _ => .error .digestError
      | .ok d => .ok d
  else .ok (canonicalFromBytes data)

/-- The record as mutated in memory by `SetBigData` after a successful
blob write (images.go 696-720): the cached size and digest are replaced,
and the key is appended to `BigDataNames` when new. -/
def bigDataUpdatedImage (image : Image) (key : String) (len : Int) (nd : DigestStr) :
    Image :=
  let image1 := { image with BigDataSizes := insertA image.BigDataSizes key len }
  let image2 := { image1 with BigDataDigests := insertA image1.BigDataDigests key nd }
  if key ∉ image2.BigDataNames
  then { image2 with BigDataNames := image2.BigDataNames ++ [key] }
  else image2

/-- The `save` flag of `SetBigData` (images.go 696-720): some cached
metadata changed — the size was absent or different, the digest was absent
or different, or the key is new to `BigDataNames`. -/
def bigDataSaveFlag (image : Image) (key : String) (len : Int) (nd : DigestStr) : Bool :=
  decide (lookupA image.BigDataSizes key ≠ some len) ||
    decide (lookupA image.BigDataDigests key ≠ some nd) ||
    decide (key ∉ image.BigDataNames)

/-- `imageStore.SetBigData` (images.go 668-750).  The blob write
(`AtomicWriteFile`) is assumed to succeed; its occurrence is reported in
the effects.  A digest-validation failure after the write returns the
error with the in-memory mutations already applied, as in the source. -/
def SetBigData (st : ImageStore) (id key : String) (data : List Nat)
    (digestManifest : Option (List Nat → Except String DigestStr)) :
    ImageStore × SetBigDataEffects × Option StoreErr :=
  if key = "" then (st, ⟨false, false⟩, some .invalidBigDataName)
  else if st.rw = false then (st, ⟨false, false⟩, some .readOnly)
  else
    match lookupId st id with
    | none => (st, ⟨false, false⟩, some .imageUnknown)
    | some ident =>
      match getImage st ident with
      | none => (st, ⟨false, false⟩, some .imageUnknown)
      | some image =>
        match computeBigDataDigest key data digestManifest with
        | .error e => (st, ⟨false, false⟩, some e)
        | .ok newDigest =>
          let image3 := bigDataUpdatedImage image key ((data.length : Int)) newDigest
          let save := bigDataSaveFlag image key ((data.length : Int)) newDigest
          let bydigest1 := image.Digests.foldl (fun m d => pruneBucket m d ident) st.bydigest
          match recomputeDigests image3 with
          | .error _ =>
            ({ st with
                images := updateImageAt st.images ident (fun _ => image3)
                bydigest := bydigest1 },
              ⟨true, false⟩, some .invalidDigest)
          | .ok image4 =>
            let bydigest2 := image4.Digests.foldl (fun m d => addIfMissing m d ident) bydigest1
            let st' := { st with
              images := updateImageAt st.images ident (fun _ => image4)
              bydigest := bydigest2 }
            if save then (st', ⟨true, true⟩, saveErr st) else (st', ⟨true, false⟩, none)

/-! Loading a snapshot (`imageStore.Load`, images.go 245-295). -/

structure LoadState where
  acc : List Image
  posOf : List (String × Nat)
  shouldSave : Bool

/-- Strip a name from the record at a position of the accumulator (the
effect of `r.removeName(conflict, name)` through the conflicting record's
pointer, modelled positionally). -/
def stripAt : List Image → Nat → String → List Image
  | [], _, _ => []
  | a :: rest, 0, n => removeNameI a n :: rest
  | a :: rest, k + 1, n => a :: stripAt rest k n

/-- The name-conflict pass of `imageStore.Load` (images.go 262-267): for
each name of the record being processed, if an earlier record is
registered under it, strip the name from that record and remember that a
resave is needed. -/
def stripConflicts (posOf : List (String × Nat)) :
    List String → List Image → Bool → List Image × Bool
  | [], acc, save => (acc, save)
  | n :: rest, acc, save =>
    match lookupA posOf n with
    | some k => stripConflicts posOf rest (stripAt acc k n) true
    | none => stripConflicts posOf rest acc save

/-- One iteration of the record loop of `imageStore.Load` (images.go
259-281): conflict pass, digest recomputation (an error aborts the load),
name registration, and `ReadOnly` derivation from the session mode. -/
def loadStep (rw : Bool) (s : LoadState) (img : Image) : Except StoreErr LoadState :=
  let p := stripConflicts s.posOf img.Names s.acc s.shouldSave
  match recomputeDigests img with
  | .error _ => .error .invalidDigest
  | .ok img2 =>
    .ok { acc := p.1 ++ [{ img2 with ReadOnly := !rw }]
          posOf := img.Names.foldl (fun m n => insertA m n p.1.length) s.posOf
          shouldSave := p.2 }

def loadAux (rw : Bool) : List Image → LoadState → Except StoreErr LoadState
  | [], s => .ok s
  | img :: rest, s =>
    match loadStep rw s img with
    | .error e => .error e
    | .ok s2 => loadAux rw rest s2

/-- Rebuild the by-digest multimap from the processed records, in
processing order (images.go 276-279). -/
def buildByDigest (imgs : List Image) : List (DigestStr × List String) :=
  imgs.foldl (fun m img => img.Digests.foldl (fun m2 d => appendToBucket m2 d img.ID) m) []

/-- `imageStore.Load` (images.go 245-295) on an already-parsed snapshot:
the rebuilt store paired with whether a conflict-forced resave happened,
or the load error.  The file read and JSON decode are outside the model;
`rw` and `locked` are the session's `IsReadWrite` and `Locked` states. -/
def Load (snapshot : List Image) (rw locked : Bool) : Except StoreErr (ImageStore × Bool) :=
  match loadAux rw snapshot { acc := [], posOf := [], shouldSave := false } with
  | .error e => .error e
  | .ok s =>
    if s.shouldSave && !(rw && locked) then .error .duplicateImageNames
    else
      .ok ({ images := s.acc
             idindex := s.acc.foldl (fun ids img => truncAdd ids img.ID) []
             byid := s.acc.map Image.ID
             byname := s.posOf.map (fun p => (p.1, (s.acc.getD p.2 emptyImage).ID))
             bydigest := buildByDigest s.acc
             rw := rw
             locked := locked }, s.shouldSave)

/-- Projection: the record list of a load result (empty on error). -/
def loadedImages (r : Except StoreErr (ImageStore × Bool)) : List Image :=
  match r with
  | .ok (st, _) => st.images
  | .error _ => []

/-- Projection: whether the load resaved the snapshot (false on error). -/
def loadedResaved (r : Except StoreErr (ImageStore × Bool)) : Bool :=
  match r with
  | .ok (_, b) => b
  | .error _ => false

instance {ε α : Type} [DecidableEq ε] [DecidableEq α] : DecidableEq (Except ε α) :=
  fun a b =>
    match a, b with
    | .error e, .error f =>
      if h : e = f then .isTrue (by rw [h]) else .isFalse (fun hc => h (Except.error.inj hc))
    | .ok x, .ok y =>
      if h : x = y then .isTrue (by rw [h]) else .isFalse (fun hc => h (Except.ok.inj hc))
    | .error _, .ok _ => .isFalse (fun hc => Except.noConfusion hc)
    | .ok _, .error _ => .isFalse (fun hc => Except.noConfusion hc)

/-- Well-formedness of a store state: the lookup structures agree with the
authoritative ordered list (spec section 4.2: "rebuilt together ... kept
mutually consistent"), IDs are pairwise distinct, per-image name lists are
duplicate-free, digest buckets are nonempty, and every record's digest
fields are a fixed point of recomputation (they were produced by it at
load or create time). -/
@[reducible] def wellFormed (st : ImageStore) : Prop :=
  (st.images.map Image.ID).Nodup
  ∧ (∀ img ∈ st.images, img.Names.Nodup)
  ∧ (∀ i ∈ st.byid, ∃ img ∈ st.images, img.ID = i)
  ∧ (∀ img ∈ st.images, img.ID ∈ st.byid)
  ∧ (∀ i ∈ st.idindex, ∃ img ∈ st.images, img.ID = i)
  ∧ (∀ p ∈ st.byname, ∃ img ∈ st.images, img.ID = p.2 ∧ p.1 ∈ img.Names)
  ∧ (∀ img ∈ st.images, ∀ n ∈ img.Names, lookupA st.byname n = some img.ID)
  ∧ (∀ p ∈ st.bydigest, p.2 ≠ [] ∧ ∀ i ∈ p.2, ∃ img ∈ st.images, img.ID = i ∧ p.1 ∈ img.Digests)
  ∧ (∀ img ∈ st.images, ∀ d ∈ img.Digests, ∃ b, lookupA st.bydigest d = some b ∧ img.ID ∈ b)
  ∧ (∀ img ∈ st.images, recomputeDigests img = Except.ok img)

/-- Some record of the list claims the name (conflict description for the
load-time resolution). -/
def claimsB (l : List Image) (n : String) : Bool :=
  l.any (fun img => decide (n ∈ img.Names))

/-- A record as `Load` produces it before any conflict stripping: digests
recomputed, `ReadOnly` derived from the session mode.  Only used on
records whose recomputation succeeds. -/
def loadedRecOf (rw : Bool) (img : Image) : Image :=
  match recomputeDigests img with
  | .ok r => { r with ReadOnly := !rw }
  | .error _ => emptyImage

/-- The record at a position of the snapshot as `Load` finally leaves it:
recomputed, `ReadOnly` derived, and stripped of every name that a later
record of the snapshot also claims (the later claimant wins). -/
def loadExpected (snap : List Image) (rw : Bool) (k : Nat) : Image :=
  { loadedRecOf rw (snap.getD k emptyImage) with
    Names := (loadedRecOf rw (snap.getD k emptyImage)).Names.filter
      (fun n => !claimsB (snap.drop (k + 1)) n) }

/-- Some record's name is claimed again by a later record of the list. -/
def dupNameExists : List Image → Prop
  | [] => False
  | img :: rest => (∃ n ∈ img.Names, claimsB rest n = true) ∨ dupNameExists rest

/-- Invariant of the record loop of `Load`: after processing `processed`,
the accumulator holds exactly the expected records, the name registry maps
each name to its last claimant so far, and the resave flag is set exactly
when a name conflict has been seen. -/
def loadInv (processed : List Image) (rw : Bool) (s : LoadState) : Prop :=
  (∀ img ∈ processed, (recomputeDigests img).isOk = true) ∧
  s.acc.length = processed.length ∧
  (∀ k, k < processed.length → s.acc.getD k emptyImage = loadExpected processed rw k) ∧
  (∀ n k, lookupA s.posOf n = some k ↔
    (k < processed.length ∧ n ∈ (processed.getD k emptyImage).Names ∧
      ∀ j, k < j → j < processed.length → n ∉ (processed.getD j emptyImage).Names)) ∧
  (∀ n, (lookupA s.posOf n).isSome = claimsB processed n) ∧
  (s.shouldSave = true ↔ dupNameExists processed)

/-- Invariant relating an in-progress record (during the name-registration
loop of `updateNames` for image `id`, after processing the names in `P`) to
its original: the identity is unchanged; any other record has lost every
processed name while never gaining one; the updated record's names are
still the old ones (installed only after the loop) and its history has
received every processed name. -/
@[reducible] def unRel (id : String) (P : List String) (a b : Image) : Prop :=
  a.ID = b.ID ∧
    (a.ID ≠ id → a.Names ⊆ b.Names ∧ ∀ n ∈ P, n ∉ a.Names) ∧
    (a.ID = id → a.Names = b.Names ∧ ∀ n ∈ P, n ∈ a.NamesHistory)

/-! Concrete store used by the witnesses. -/

def wid : String := "0123456789abcdef"

def wImg : Image :=
  { emptyImage with
    ID := wid, Digest := dA, Digests := [dA], Names := ["localhost/foo"]
    BigDataNames := ["manifest"], BigDataSizes := [("manifest", 3)]
    BigDataDigests := [("manifest", dA)] }

def wStore : ImageStore :=
  { images := [wImg], idindex := [wid], byid := [wid]
    byname := [("localhost/foo", wid)], bydigest := [(dA, [wid])]
    rw := true, locked := true }

/-- Counterexample store for the delete/exists claim: two images whose
IDs share a prefix. -/
def imgAB : Image := { emptyImage with ID := "ab" }

def imgABCD : Image := { emptyImage with ID := "abcd" }

def stC4 : ImageStore :=
  { images := [imgAB, imgABCD], idindex := ["ab", "abcd"], byid := ["ab", "abcd"]
    byname := [], bydigest := [], rw := true, locked := true }

/-- The record of `wStore` after renaming it to `localhost/bar`. -/
def wImgRenamed : Image :=
  { wImg with Names := ["localhost/bar"], NamesHistory := ["localhost/bar"] }

/-- Snapshot records for the load-conflict witness: two records of the
persisted list claiming the same name. -/
def imgL1 : Image := { emptyImage with ID := "1111", Names := ["localhost/dup"] }

def imgL2 : Image := { emptyImage with ID := "2222", Names := ["localhost/dup"] }

/-! Theorems. -/

@[simp] theorem lookupA_nil {α : Type} (k : String) :
    lookupA ([] : List (String × α)) k = none := rfl

theorem lookupA_cons {α : Type} (p : String × α) (rest : List (String × α)) (k : String) :
    lookupA (p :: rest) k = if p.1 = k then some p.2 else lookupA rest k := rfl

theorem lookupA_insertA_self {α : Type} (l : List (String × α)) (k : String) (v : α) :
    lookupA (insertA l k v) k = some v := by
  induction l with
  | nil => simp [insertA, lookupA]
  | cons p rest ih =>
    by_cases h : p.1 = k
    · simp [insertA, h, lookupA]
    · simp [insertA, h, lookupA_cons, ih]

theorem lookupA_insertA_ne {α : Type} (l : List (String × α)) (k k' : String) (v : α)
    (h : k ≠ k') : lookupA (insertA l k v) k' = lookupA l k' := by
  induction l with
  | nil => simp [insertA, lookupA, h]
  | cons p rest ih =>
    by_cases hp : p.1 = k
    · subst hp
      simp [insertA, lookupA_cons, h]
    · simp only [insertA, if_neg hp, lookupA_cons, ih]

theorem insertA_self_of_lookup {α : Type} (l : List (String × α)) (k : String) (v : α)
    (h : lookupA l k = some v) : insertA l k v = l := by
  induction l with
  | nil => simp [lookupA] at h
  | cons p rest ih =>
    obtain ⟨pk, pv⟩ := p
    by_cases hp : pk = k
    · subst hp
      rw [lookupA_cons, if_pos rfl] at h
      obtain rfl : pv = v := by injection h
      simp [insertA]
    · rw [lookupA_cons, if_neg hp] at h
      simp [insertA, hp, ih h]

theorem lookupA_eraseA_self {α : Type} (l : List (String × α)) (k : String) :
    lookupA (eraseA l k) k = none := by
  induction l with
  | nil => rfl
  | cons p rest ih =>
    by_cases hp : p.1 = k
    · simpa [eraseA, hp] using ih
    · simpa [eraseA, hp, lookupA_cons] using ih

theorem lookupA_eraseA_ne {α : Type} (l : List (String × α)) (k k' : String)
    (h : k ≠ k') : lookupA (eraseA l k) k' = lookupA l k' := by
  induction l with
  | nil => rfl
  | cons p rest ih =>
    by_cases hp : p.1 = k
    · rw [show eraseA (p :: rest) k = eraseA rest k by simp [eraseA, hp]]
      rw [ih, lookupA_cons, if_neg (by rw [hp]; exact h)]
    · rw [show eraseA (p :: rest) k = p :: eraseA rest k by simp [eraseA, hp]]
      rw [lookupA_cons, lookupA_cons, ih]

theorem lookupA_mem {α : Type} {l : List (String × α)} {k : String} {v : α}
    (h : lookupA l k = some v) : (k, v) ∈ l := by
  induction l with
  | nil => simp [lookupA] at h
  | cons p rest ih =>
    obtain ⟨pk, pv⟩ := p
    by_cases hp : pk = k
    · subst hp
      rw [lookupA_cons, if_pos rfl] at h
      obtain rfl : pv = v := by injection h
      exact List.mem_cons_self _ _
    · rw [lookupA_cons, if_neg hp] at h
      exact List.mem_cons_of_mem _ (ih h)

/-! Basic facts about `recomputeAux`. -/

theorem recomputeAux_sound :
    ∀ (l : List (String × DigestStr)) (acc res : List DigestStr),
      recomputeAux l acc = .ok res →
      (acc.Nodup → res.Nodup) ∧
      ((∀ d ∈ acc, digestValid d = true) → ∀ d ∈ res, digestValid d = true) ∧
      (∀ d ∈ acc, d ∈ res) ∧
      (∀ x, res.headD x = acc.headD (res.headD x))
  | [], acc, res, h => by
    obtain rfl : acc = res := by simpa [recomputeAux] using h
    refine ⟨id, fun hv => hv, fun d hd => hd, fun x => ?_⟩
    cases acc <;> rfl
  | (name, d) :: rest, acc, res, h => by
    rw [recomputeAux] at h
    by_cases hm : bigDataNameIsManifest name = false
    · rw [if_pos hm] at h
      exact recomputeAux_sound rest acc res h
    · rw [if_neg hm] at h
      by_cases hv : digestValid d = false
      · rw [if_pos hv] at h
        exact absurd h (by simp)
      · rw [if_neg hv] at h
        by_cases hd : d ∈ acc
        · rw [if_pos hd] at h
          exact recomputeAux_sound rest acc res h
        · rw [if_neg hd] at h
          obtain ⟨h1, h2, h3, h4⟩ := recomputeAux_sound rest (acc ++ [d]) res h
          refine ⟨?_, ?_, ?_, ?_⟩
          · intro hnd
            exact h1 (by simp [List.nodup_append, hnd, hd])
          · intro hall
            refine h2 ?_
            intro e he
            rcases List.mem_append.mp he with he | he
            · exact hall e he
            · obtain rfl : e = d := by simpa using he
              simpa using hv
          · intro e he
            exact h3 e (List.mem_append.mpr (Or.inl he))
          · intro x
            have := h4 x
            cases acc with
            | nil => rfl
            | cons a as => simpa using this

theorem recomputeAux_ok_of_valid :
    ∀ (l : List (String × DigestStr)) (acc : List DigestStr),
      (∀ p ∈ l, bigDataNameIsManifest p.1 = true → digestValid p.2 = true) →
      (recomputeAux l acc).isOk = true
  | [], _, _ => rfl
  | (name, d) :: rest, acc, h => by
    rw [recomputeAux]
    by_cases hm : bigDataNameIsManifest name = false
    · rw [if_pos hm]
      exact recomputeAux_ok_of_valid rest acc (fun p hp => h p (List.mem_cons_of_mem _ hp))
    · rw [if_neg hm]
      have hd : digestValid d = true :=
        h (name, d) (List.mem_cons_self _ _) (by simpa using hm)
      rw [if_neg (by simp [hd])]
      by_cases hmem : d ∈ acc
      · rw [if_pos hmem]
        exact recomputeAux_ok_of_valid rest acc (fun p hp => h p (List.mem_cons_of_mem _ hp))
      · rw [if_neg hmem]
        exact recomputeAux_ok_of_valid rest (acc ++ [d]) (fun p hp => h p (List.mem_cons_of_mem _ hp))

theorem digestValid_ne_empty {d : DigestStr} (h : digestValid d = true) : d ≠ "" := by
  intro hd
  subst hd
  simp [digestValid, strHasPref, List.isPrefixOf] at h

theorem recomputeCore_sound (d0 : DigestStr) (bdd : List (String × DigestStr))
    (d : DigestStr) (ds : List DigestStr) (h : recomputeCore d0 bdd = .ok (d, ds)) :
    ds.Nodup ∧ (∀ e ∈ ds, digestValid e = true) ∧
      (d ≠ "" → ds.head? = some d ∧ d ∈ ds) := by
  rw [recomputeCore] at h
  by_cases h0 : d0 = ""
  · rw [if_pos h0] at h
    rcases haux : recomputeAux bdd [] with e | valid
    · rw [haux] at h
      exact absurd h (by simp)
    · rw [haux] at h
      injection h with h1
      injection h1 with hd hds
      subst hds
      subst hd
      obtain ⟨hn, hv, _, _⟩ := recomputeAux_sound _ _ _ haux
      refine ⟨hn List.nodup_nil, hv (by simp), ?_⟩
      intro hne
      cases valid with
      | nil => exact absurd rfl hne
      | cons a as => exact ⟨rfl, by simp⟩
  · rw [if_neg h0] at h
    by_cases hval : digestValid d0 = false
    · rw [if_pos hval] at h
      exact absurd h (by simp)
    · rw [if_neg hval] at h
      rcases haux : recomputeAux bdd [d0] with e | valid
      · rw [haux] at h
        exact absurd h (by simp)
      · rw [haux] at h
        injection h with h1
        injection h1 with hd hds
        subst hds
        subst hd
        obtain ⟨hn, hv, hmem, hhead⟩ := recomputeAux_sound _ _ _ haux
        have hdmem : d0 ∈ valid := hmem d0 (by simp)
        refine ⟨hn (by simp), hv ?_, ?_⟩
        · intro e he
          obtain rfl : e = d0 := by simpa using he
          simpa using hval
        · intro _
          refine ⟨?_, hdmem⟩
          cases valid with
          | nil => simp at hdmem
          | cons a as =>
            have := hhead ""
            simp only [List.headD] at this
            simp [this]

/-- C7: after digest recomputation, `Digests` has no duplicates, every
element is syntactically valid, and a non-empty `Digest` is the first
element of `Digests` (hence a member). -/
theorem recompute_digest_invariants (i i' : Image) (h : recomputeDigests i = Except.ok i') :
    i'.Digests.Nodup ∧ (∀ d ∈ i'.Digests, digestValid d = true) ∧
      (i'.Digest ≠ "" → i'.Digests.head? = some i'.Digest ∧ i'.Digest ∈ i'.Digests) := by
  rw [recomputeDigests] at h
  rcases hcore : recomputeCore i.Digest i.BigDataDigests with e | pr
  · rw [hcore] at h
    exact absurd h (by simp)
  · obtain ⟨d, ds⟩ := pr
    rw [hcore] at h
    have h' : ({ i with Digest := d, Digests := ds } : Image) = i' := Except.ok.inj h
    subst h'
    exact recomputeCore_sound _ _ _ _ hcore

/-- Witness for `recompute_digest_invariants` at the concrete image
`imgC7`. -/
theorem recompute_digest_invariants_witness :
    recomputeDigests imgC7 = Except.ok { imgC7 with Digest := dA, Digests := [dA, dB] } ∧
      ({ imgC7 with Digest := dA, Digests := [dA, dB] } : Image).Digests.Nodup ∧
      (∀ d ∈ ({ imgC7 with Digest := dA, Digests := [dA, dB] } : Image).Digests, digestValid d = true) ∧
      (({ imgC7 with Digest := dA, Digests := [dA, dB] } : Image).Digest ≠ "" →
        ({ imgC7 with Digest := dA, Digests := [dA, dB] } : Image).Digests.head? =
            some ({ imgC7 with Digest := dA, Digests := [dA, dB] } : Image).Digest ∧
          ({ imgC7 with Digest := dA, Digests := [dA, dB] } : Image).Digest ∈
            ({ imgC7 with Digest := dA, Digests := [dA, dB] } : Image).Digests) := by
  have h : recomputeDigests imgC7 = Except.ok { imgC7 with Digest := dA, Digests := [dA, dB] } := by
    have h1 : digestValid dA = true := by decide
    have h2 : digestValid dB = true := by decide
    have h3 : bigDataNameIsManifest "manifest" = true := by decide
    have h4 : (dA : String) ≠ "" := by decide
    have h5 : (dB : String) ≠ (dA : String) := by decide
    simp [recomputeDigests, recomputeCore, recomputeAux, imgC7, emptyImage, h1, h2, h3, h4, h5]
  exact ⟨h, recompute_digest_invariants imgC7 _ h⟩

/-- C1 (amended): with no explicit digest and a big-data digest cache of
exactly `{"manifest": D1, "manifest-arch": D2}`, recomputation produces the
two digests in the cache's iteration order (which Go leaves unspecified)
and sets `Digest` to the first element of the resulting list; when the
`"manifest"` entry is iterated first this gives `Digests = [D1, D2]` and
`Digest = D1`. -/
theorem recompute_two_manifest_entries (i : Image) (d1 d2 : DigestStr)
    (hd0 : i.Digest = "")
    (h1 : digestValid d1 = true) (h2 : digestValid d2 = true) (hne : d1 ≠ d2)
    (hbdd : i.BigDataDigests = [("manifest", d1), ("manifest-arch", d2)] ∨
      i.BigDataDigests = [("manifest-arch", d2), ("manifest", d1)]) :
    recIsOk i = true ∧
      ((recDigestList i = [d1, d2] ∧ recDigest i = d1) ∨
        (recDigestList i = [d2, d1] ∧ recDigest i = d2)) ∧
      recDigest i = (recDigestList i).headD "" := by
  have hm1 : bigDataNameIsManifest "manifest" = true := by decide
  have hm2 : bigDataNameIsManifest "manifest-arch" = true := by decide
  have hne' : ¬(d2 = d1) := fun h => hne h.symm
  rcases hbdd with hb | hb
  · have hcomp : recomputeDigests i = Except.ok { i with Digest := d1, Digests := [d1, d2] } := by
      simp [recomputeDigests, recomputeCore, recomputeAux, hd0, hb, h1, h2, hm1, hm2, hne']
    refine ⟨?_, Or.inl ⟨?_, ?_⟩, ?_⟩ <;>
      simp [recIsOk, recDigest, recDigestList, hcomp, Except.isOk, Except.toBool]
  · have hcomp : recomputeDigests i = Except.ok { i with Digest := d2, Digests := [d2, d1] } := by
      simp [recomputeDigests, recomputeCore, recomputeAux, hd0, hb, h1, h2, hm1, hm2, hne]
    refine ⟨?_, Or.inr ⟨?_, ?_⟩, ?_⟩ <;>
      simp [recIsOk, recDigest, recDigestList, hcomp, Except.isOk, Except.toBool]

/-- Witness for `recompute_two_manifest_entries` at the concrete image
`imgC1good`. -/
theorem recompute_two_manifest_entries_witness :
    (imgC1good.Digest = "" ∧ digestValid dA = true ∧ digestValid dB = true ∧ dA ≠ dB) ∧
      (recIsOk imgC1good = true ∧
        ((recDigestList imgC1good = [dA, dB] ∧ recDigest imgC1good = dA) ∨
          (recDigestList imgC1good = [dB, dA] ∧ recDigest imgC1good = dB)) ∧
        recDigest imgC1good = (recDigestList imgC1good).headD "") :=
  ⟨⟨by decide, by decide, by decide, by decide⟩,
    recompute_two_manifest_entries imgC1good dA dB (by decide) (by decide) (by decide)
      (by decide) (Or.inl (by decide))⟩

/-- Counterexample to C1 as stated: the image `imgC1` has no explicit
digest and its big-data digest cache holds exactly the entries
`{"manifest": dA, "manifest-arch": dB}`, yet recomputation (with the
`"manifest-arch"` entry iterated first, an order Go permits) yields
`Digests = [dB, dA]` and canonical `Digest = dB ≠ dA`. -/
theorem recompute_two_manifest_entries_cex :
    imgC1.Digest = "" ∧
      recIsOk imgC1 = true ∧
      recDigestList imgC1 = [dB, dA] ∧
      recDigest imgC1 = dB ∧
      ¬(recDigest imgC1 = dA) := by
  refine ⟨rfl, ?_, ?_, ?_, ?_⟩ <;> decide

/-! Well-formedness helper lemmas. -/

theorem find?_id_of_nodup :
    ∀ (l : List Image) (img : Image), (l.map Image.ID).Nodup → img ∈ l →
      l.find? (fun i => decide (i.ID = img.ID)) = some img
  | [], _, _, hmem => absurd hmem (List.not_mem_nil _)
  | a :: rest, img, hnd, hmem => by
    rcases List.mem_cons.mp hmem with rfl | hmem'
    · simp [List.find?]
    · have hne : a.ID ≠ img.ID := by
        intro he
        have hin : img.ID ∈ rest.map Image.ID := List.mem_map_of_mem _ hmem'
        rw [List.map_cons] at hnd
        exact (List.nodup_cons.mp hnd).1 (he ▸ hin)
      rw [List.find?_cons_of_neg _ (by simpa using hne)]
      exact find?_id_of_nodup rest img (List.nodup_cons.mp (by rwa [List.map_cons] at hnd)).2 hmem'

theorem getImage_of_mem (st : ImageStore) (img : Image)
    (hnd : (st.images.map Image.ID).Nodup) (hmem : img ∈ st.images) :
    getImage st img.ID = some img :=
  find?_id_of_nodup st.images img hnd hmem

theorem getImage_mem {st : ImageStore} {ident : String} {img : Image}
    (h : getImage st ident = some img) : img ∈ st.images ∧ img.ID = ident := by
  refine ⟨List.mem_of_find?_eq_some h, ?_⟩
  have := List.find?_some h
  simpa using this

theorem id_inj_of_nodup {l : List Image} (hnd : (l.map Image.ID).Nodup)
    {a b : Image} (ha : a ∈ l) (hb : b ∈ l) (h : a.ID = b.ID) : a = b :=
  List.inj_on_of_nodup_map hnd ha hb h

theorem lookupId_of_byid {st : ImageStore} {id : String} (h : id ∈ st.byid) :
    lookupId st id = some id := by
  simp [lookupId, h]

theorem mem_dedupe_foldl (n : String) :
    ∀ (l acc : List String),
      n ∈ l.foldl (fun acc m => if m ∈ acc then acc else acc ++ [m]) acc ↔ n ∈ acc ∨ n ∈ l
  | [], acc => by simp
  | m :: l, acc => by
    rw [List.foldl_cons, mem_dedupe_foldl n l]
    by_cases hm : m ∈ acc
    · rw [if_pos hm]
      constructor
      · rintro (h | h)
        · exact Or.inl h
        · exact Or.inr (List.mem_cons_of_mem _ h)
      · rintro (h | h)
        · exact Or.inl h
        · rcases List.mem_cons.mp h with rfl | h
          · exact Or.inl hm
          · exact Or.inr h
    · rw [if_neg hm]
      simp only [List.mem_append, List.mem_singleton, List.mem_cons]
      tauto

theorem mem_dedupeNames (n : String) (l : List String) : n ∈ dedupeNames l ↔ n ∈ l := by
  rw [dedupeNames, mem_dedupe_foldl]
  simp

/-- C9: looking up a digest under which no image is indexed returns the
image-unknown error, never a successful empty list; an indexed digest
returns exactly the images of its bucket (all of which carry the digest). -/
theorem by_digest_spec (st : ImageStore) (d : DigestStr) (hwf : wellFormed st) :
    (lookupA st.bydigest d = none ↔ ∀ img ∈ st.images, d ∉ img.Digests) ∧
      (ByDigest st d = .error .imageUnknown ↔ lookupA st.bydigest d = none) ∧
      ∀ bucket, lookupA st.bydigest d = some bucket →
        ByDigest st d = .ok (bucket.filterMap (getImage st)) ∧
        bucket.filterMap (getImage st) ≠ [] ∧
        ∀ img ∈ bucket.filterMap (getImage st), img ∈ st.images ∧ d ∈ img.Digests := by
  obtain ⟨h1, h2, h3, h4, h5, h6, h7, h8, h9, h10⟩ := hwf
  refine ⟨⟨?_, ?_⟩, ⟨?_, ?_⟩, ?_⟩
  · intro hnone img hmem hd
    obtain ⟨b, hb, _⟩ := h9 img hmem d hd
    rw [hnone] at hb
    exact Option.noConfusion hb
  · intro hno
    rcases hb : lookupA st.bydigest d with _ | bucket
    · rfl
    · obtain ⟨hne, hall⟩ := h8 (d, bucket) (lookupA_mem hb)
      cases bucket with
      | nil => exact absurd rfl hne
      | cons i rest =>
        obtain ⟨img, hmem, hidm, hd⟩ := hall i (by simp)
        exact absurd hd (hno img hmem)
  · intro herr
    rcases hb : lookupA st.bydigest d with _ | bucket
    · rfl
    · rw [ByDigest, hb] at herr
      exact Except.noConfusion herr
  · intro hnone
    rw [ByDigest, hnone]
  · intro bucket hb
    obtain ⟨hne, hall⟩ := h8 (d, bucket) (lookupA_mem hb)
    refine ⟨by rw [ByDigest, hb], ?_, ?_⟩
    · cases bucket with
      | nil => exact absurd rfl hne
      | cons i rest =>
        obtain ⟨img, hmem, hidm, hd⟩ := hall i (by simp)
        have hg : getImage st i = some img := by
          rw [← hidm]
          exact getImage_of_mem st img h1 hmem
        simp [List.filterMap_cons, hg]
    · intro img hmem'
      obtain ⟨i, hi, hgi⟩ := List.mem_filterMap.mp hmem'
      obtain ⟨himg_mem, himg_id⟩ := getImage_mem hgi
      obtain ⟨img', hmem'', hid', hd'⟩ := hall i hi
      have heq : img' = img :=
        id_inj_of_nodup h1 hmem'' himg_mem (by rw [hid', himg_id])
      exact ⟨himg_mem, heq ▸ hd'⟩

/-- Witness for `by_digest_spec`: in the concrete store `wStore`, the
unindexed digest `dB` yields the image-unknown error and the indexed
digest `dA` yields exactly the bucket's record. -/
theorem by_digest_spec_witness :
    wellFormed wStore ∧
      ByDigest wStore dB = .error .imageUnknown ∧
      ByDigest wStore dA = .ok [wImg] := by
  have hwf : wellFormed wStore := by decide
  refine ⟨hwf, ((by_digest_spec wStore dB hwf).2.1).mpr (by decide), ?_⟩
  have h := ((by_digest_spec wStore dA hwf).2.2) [wid] (by decide)
  have he : ([wid].filterMap (getImage wStore)) = [wImg] := by decide
  rw [← he]
  exact h.1

/-- C10: a `SetBigData` call for a manifest-named key with no
caller-supplied digest function fails with digest-unknown before the blob
is written and without modifying the store. -/
theorem set_big_data_no_callback (st : ImageStore) (id key : String) (data : List Nat)
    (image : Image) (hwf : wellFormed st) (hrw : st.rw = true)
    (hkey : bigDataNameIsManifest key = true) (himg : getImage st id = some image) :
    SetBigData st id key data none = (st, ⟨false, false⟩, some .digestUnknown) := by
  obtain ⟨h1, h2, h3, h4, h5, h6, h7, h8, h9, h10⟩ := hwf
  obtain ⟨hmem, hidm⟩ := getImage_mem himg
  have hkey' : key ≠ "" := by
    intro h
    subst h
    exact absurd hkey (by decide)
  have hbyid : id ∈ st.byid := by
    rw [← hidm]
    exact h4 image hmem
  have hlook : lookupId st id = some id := lookupId_of_byid hbyid
  simp [SetBigData, hkey', hrw, hlook, himg, computeBigDataDigest, hkey]

/-- Witness for `set_big_data_no_callback` at the concrete store. -/
theorem set_big_data_no_callback_witness :
    (wellFormed wStore ∧ wStore.rw = true ∧ bigDataNameIsManifest "manifest" = true ∧
        getImage wStore wid = some wImg) ∧
      SetBigData wStore wid "manifest" [1, 2, 3] none =
        (wStore, ⟨false, false⟩, some .digestUnknown) :=
  ⟨⟨by decide, rfl, by decide, by decide⟩,
    set_big_data_no_callback wStore wid "manifest" [1, 2, 3] wImg (by decide) rfl
      (by decide) (by decide)⟩

/-- C3: a `Create` whose requested ID is in use, or one of whose requested
names is bound, fails with the corresponding conflict error, returns no
record, leaves the store (list and indices) unchanged, and every name
binding still resolves to the image that held it. -/
theorem create_conflict (st : ImageStore) (genIds : List String) (id : String)
    (names : List String) (layer metadata : String) (created now : Nat)
    (sd : DigestStr) (hwf : wellFormed st) (hrw : st.rw = true) (hid : id ≠ "")
    (hconf : id ∈ st.byid ∨ ∃ n ∈ names, (lookupA st.byname n).isSome = true) :
    (Create st genIds id names layer metadata created now sd).1 = st ∧
      (Create st genIds id names layer metadata created now sd).2.1 = none ∧
      ((Create st genIds id names layer metadata created now sd).2.2 = some .duplicateID ∨
        (Create st genIds id names layer metadata created now sd).2.2 = some .duplicateName) ∧
      ∀ n ident, lookupA st.byname n = some ident →
        ∃ img,
          getImage (Create st genIds id names layer metadata created now sd).1 ident = some img ∧
          n ∈ img.Names ∧
          lookupA (Create st genIds id names layer metadata created now sd).1.byname n = some ident := by
  obtain ⟨h1, h2, h3, h4, h5, h6, h7, h8, h9, h10⟩ := hwf
  have hres : (Create st genIds id names layer metadata created now sd) = (st, none, some .duplicateID) ∨
      (Create st genIds id names layer metadata created now sd) = (st, none, some .duplicateName) := by
    by_cases hin : id ∈ st.byid
    · left
      simp [Create, hrw, hid, hin]
    · right
      obtain ⟨n, hn, hsome⟩ := hconf.resolve_left hin
      have hany : (dedupeNames names).any (fun n => (lookupA st.byname n).isSome) = true :=
        List.any_eq_true.mpr ⟨n, (mem_dedupeNames n names).mpr hn, hsome⟩
      simp [Create, hrw, hid, hin, hany]
  have hretr : ∀ n ident, lookupA st.byname n = some ident →
      ∃ img, getImage st ident = some img ∧ n ∈ img.Names ∧
        lookupA st.byname n = some ident := by
    intro n ident hln
    obtain ⟨img, hmem, hid', hnm⟩ := h6 (n, ident) (lookupA_mem hln)
    dsimp only at hid' hnm
    refine ⟨img, ?_, hnm, hln⟩
    rw [← hid']
    exact getImage_of_mem st img h1 hmem
  rcases hres with h | h <;> rw [h] <;>
    exact ⟨rfl, rfl, by simp, hretr⟩

/-- Witness for `create_conflict`: creating a second image with the name
already held in `wStore` fails with a conflict and the name still resolves
to the original record. -/
theorem create_conflict_witness :
    (wellFormed wStore ∧ wStore.rw = true ∧ ("ffff" : String) ≠ "" ∧
        (∃ n ∈ ["localhost/foo"], (lookupA wStore.byname n).isSome = true)) ∧
      (Create wStore [] "ffff" ["localhost/foo"] "layer" "" 7 7 "").1 = wStore ∧
      (Create wStore [] "ffff" ["localhost/foo"] "layer" "" 7 7 "").2.1 = none ∧
      ((Create wStore [] "ffff" ["localhost/foo"] "layer" "" 7 7 "").2.2 = some .duplicateID ∨
        (Create wStore [] "ffff" ["localhost/foo"] "layer" "" 7 7 "").2.2 = some .duplicateName) ∧
      (∃ img,
        getImage (Create wStore [] "ffff" ["localhost/foo"] "layer" "" 7 7 "").1 wid = some img ∧
        "localhost/foo" ∈ img.Names ∧
        lookupA (Create wStore [] "ffff" ["localhost/foo"] "layer" "" 7 7 "").1.byname
            "localhost/foo" = some wid) := by
  have h := create_conflict wStore [] "ffff" ["localhost/foo"] "layer" "" 7 7 ""
    (by decide) rfl (by decide) (Or.inr ⟨"localhost/foo", by decide, by decide⟩)
  exact ⟨⟨by decide, rfl, by decide, ⟨"localhost/foo", by decide, by decide⟩⟩,
    h.1, h.2.1, h.2.2.1, h.2.2.2 "localhost/foo" wid (by decide)⟩

/-! Facts about the delete scan and the index pruning helpers. -/

theorem lastIdxOfAux_const :
    ∀ (imgs : List Image) (ident : String) (k : Nat) (acc : Option Nat),
      (∀ img ∈ imgs, img.ID ≠ ident) → lastIdxOfAux imgs ident k acc = acc
  | [], _, _, _, _ => rfl
  | a :: rest, ident, k, acc, h => by
    rw [lastIdxOfAux, if_neg (h a (List.mem_cons_self _ _))]
    exact lastIdxOfAux_const rest ident (k + 1) acc
      (fun img hm => h img (List.mem_cons_of_mem _ hm))

theorem lastIdxOfAux_shift :
    ∀ (imgs : List Image) (ident : String) (k : Nat) (acc : Option Nat),
      lastIdxOfAux imgs ident (k + 1) (Option.map Nat.succ acc) =
        Option.map Nat.succ (lastIdxOfAux imgs ident k acc)
  | [], _, _, _ => rfl
  | a :: rest, ident, k, acc => by
    rw [lastIdxOfAux, lastIdxOfAux]
    by_cases h : a.ID = ident
    · rw [if_pos h, if_pos h]
      exact lastIdxOfAux_shift rest ident (k + 1) (some k)
    · rw [if_neg h, if_neg h]
      exact lastIdxOfAux_shift rest ident (k + 1) acc

theorem delete_images_filter :
    ∀ (imgs : List Image) (ident : String), (imgs.map Image.ID).Nodup →
      (match lastIdxOf imgs ident with
        | some k => imgs.eraseIdx k
        | none => imgs) = imgs.filter (fun i => decide (i.ID ≠ ident))
  | [], ident, _ => rfl
  | a :: rest, ident, hnd => by
    obtain ⟨hna, hndr⟩ := List.nodup_cons.mp (by rwa [List.map_cons] at hnd)
    rw [lastIdxOf, lastIdxOfAux]
    by_cases h : a.ID = ident
    · rw [if_pos h]
      have hrest : ∀ img ∈ rest, img.ID ≠ ident := by
        intro img hm he
        exact hna (by rw [h, ← he]; exact List.mem_map_of_mem _ hm)
      rw [lastIdxOfAux_const rest ident 1 (some 0) hrest]
      have hfr : rest.filter (fun i => decide (i.ID ≠ ident)) = rest :=
        List.filter_eq_self.mpr (fun img hm => by simpa using hrest img hm)
      show rest = List.filter (fun i => decide (i.ID ≠ ident)) (a :: rest)
      rw [List.filter_cons, if_neg (by simp [h])]
      exact hfr.symm
    · rw [if_neg h]
      have hshift : lastIdxOfAux rest ident 1 none =
          Option.map Nat.succ (lastIdxOf rest ident) :=
        lastIdxOfAux_shift rest ident 0 none
      rw [hshift]
      have ih := delete_images_filter rest ident hndr
      rcases hcase : lastIdxOf rest ident with _ | k <;> rw [hcase] at ih
      · have ih2 : rest = List.filter (fun i => decide (i.ID ≠ ident)) rest := ih
        show a :: rest = List.filter (fun i => decide (i.ID ≠ ident)) (a :: rest)
        rw [List.filter_cons, if_pos (by simp [h]), ← ih2]
      · have ih2 : rest.eraseIdx k = List.filter (fun i => decide (i.ID ≠ ident)) rest := ih
        show a :: rest.eraseIdx k = List.filter (fun i => decide (i.ID ≠ ident)) (a :: rest)
        rw [List.filter_cons, if_pos (by simp [h]), ← ih2]

theorem lookupA_foldl_eraseA {α : Type} :
    ∀ (names : List String) (m0 : List (String × α)) (n : String),
      lookupA (names.foldl (fun m x => eraseA m x) m0) n =
        if n ∈ names then none else lookupA m0 n
  | [], m0, n => by simp
  | x :: rest, m0, n => by
    rw [List.foldl_cons, lookupA_foldl_eraseA rest]
    by_cases hr : n ∈ rest
    · simp [hr, List.mem_cons]
    · rw [if_neg hr]
      by_cases hx : n = x
      · subst hx
        rw [if_pos (List.mem_cons_self _ _), lookupA_eraseA_self]
      · rw [if_neg (by simp [List.mem_cons, hx, hr]),
          lookupA_eraseA_ne _ _ _ (fun he => hx he.symm)]

theorem lookupA_pruneBucket (m : List (DigestStr × List String)) (d d' : DigestStr)
    (ident : String) :
    lookupA (pruneBucket m d ident) d' =
      if d' = d then
        match lookupA m d with
        | none => none
        | some b =>
          if imageSliceWithoutValue b ident = [] then none
          else some (imageSliceWithoutValue b ident)
      else lookupA m d' := by
  rcases hb : lookupA m d with _ | b
  · have hp : pruneBucket m d ident = m := by
      rw [pruneBucket, hb]
    rw [hp]
    by_cases h : d' = d
    · rw [if_pos h, h, hb]
    · rw [if_neg h]
  · by_cases hpr : imageSliceWithoutValue b ident = []
    · have hp : pruneBucket m d ident = eraseA m d := by
        rw [pruneBucket, hb]
        dsimp only
        rw [if_pos hpr]
      rw [hp]
      dsimp only
      rw [if_pos hpr]
      by_cases h : d' = d
      · rw [if_pos h, h, lookupA_eraseA_self]
      · rw [if_neg h, lookupA_eraseA_ne _ _ _ (fun he => h he.symm)]
    · have hp : pruneBucket m d ident = insertA m d (imageSliceWithoutValue b ident) := by
        rw [pruneBucket, hb]
        dsimp only
        rw [if_neg hpr]
      rw [hp]
      dsimp only
      rw [if_neg hpr]
      by_cases h : d' = d
      · rw [if_pos h, h, lookupA_insertA_self]
      · rw [if_neg h, lookupA_insertA_ne _ _ _ _ (fun he => h he.symm)]

theorem foldl_pruneBucket_sound (ident : String) :
    ∀ (ds : List DigestStr) (m : List (DigestStr × List String)) (d' : DigestStr)
      (b' : List String),
      lookupA (ds.foldl (fun m2 d2 => pruneBucket m2 d2 ident) m) d' = some b' →
      ident ∈ b' →
      d' ∉ ds ∧ ∃ b0, lookupA m d' = some b0 ∧ ident ∈ b0
  | [], m, d', b', h, hid => ⟨List.not_mem_nil _, b', h, hid⟩
  | d2 :: rest, m, d', b', h, hid => by
    rw [List.foldl_cons] at h
    obtain ⟨hnr, b0', hl, hid0⟩ := foldl_pruneBucket_sound ident rest _ d' b' h hid
    rw [lookupA_pruneBucket] at hl
    by_cases he : d' = d2
    · rw [if_pos he] at hl
      rcases hb : lookupA m d2 with _ | b
      · rw [hb] at hl
        dsimp only at hl
        exact absurd hl (by simp)
      · rw [hb] at hl
        dsimp only at hl
        by_cases hemp : imageSliceWithoutValue b ident = []
        · rw [if_pos hemp] at hl
          exact absurd hl (by simp)
        · rw [if_neg hemp] at hl
          injection hl with hl
          subst hl
          have hmf := List.mem_filter.mp hid0
          simp at hmf
    · rw [if_neg he] at hl
      exact ⟨by simp [List.mem_cons, he, hnr], b0', hl, hid0⟩

/-- C4 (amended): deleting an image in a writable locked store succeeds and
removes it everywhere: the record list keeps exactly the other records, the
ID leaves the by-ID map, every former name leaves the by-name map, and no
by-digest bucket retains the image.  `Exists(id)` becomes false provided
the ID is not also a name of another image and not a prefix of another
image's ID (otherwise `lookup` legitimately resolves those, see the
counterexample). -/
theorem delete_spec (st : ImageStore) (id : String) (image : Image)
    (hwf : wellFormed st) (hrw : st.rw = true) (hlk : st.locked = true)
    (himg : getImage st id = some image)
    (hnopref : ∀ img' ∈ st.images, img'.ID ≠ id → strHasPref id img'.ID = false)
    (hnoname : ∀ img' ∈ st.images, img'.ID ≠ id → id ∉ img'.Names) :
    (Delete st id).2 = none ∧
      (Delete st id).1.images = st.images.filter (fun i => decide (i.ID ≠ id)) ∧
      (∀ img' ∈ (Delete st id).1.images, img'.ID ≠ id) ∧
      id ∉ (Delete st id).1.byid ∧
      (∀ n ∈ image.Names, lookupA (Delete st id).1.byname n = none) ∧
      (∀ d' b', lookupA (Delete st id).1.bydigest d' = some b' → id ∉ b') ∧
      existsImage (Delete st id).1 id = false := by
  obtain ⟨h1, h2, h3, h4, h5, h6, h7, h8, h9, h10⟩ := hwf
  obtain ⟨hmem, hidm⟩ := getImage_mem himg
  have hbyid : id ∈ st.byid := by
    rw [← hidm]
    exact h4 image hmem
  have hlook : lookupId st id = some id := lookupId_of_byid hbyid
  have eerr : (Delete st id).2 = none := by
    simp [Delete, hrw, hlook, himg, saveErr, hlk]
  have eimages : (Delete st id).1.images = st.images.filter (fun i => decide (i.ID ≠ id)) := by
    have e2 : (Delete st id).1.images = (match lastIdxOf st.images id with
        | some k => st.images.eraseIdx k
        | none => st.images) := by
      simp [Delete, hrw, hlook, himg]
    rw [e2]
    exact delete_images_filter st.images id h1
  have ebyid : (Delete st id).1.byid = st.byid.filter (fun i => decide (i ≠ id)) := by
    simp [Delete, hrw, hlook, himg]
  have ebyname : (Delete st id).1.byname =
      image.Names.foldl (fun m n => eraseA m n) st.byname := by
    simp [Delete, hrw, hlook, himg]
  have ebydigest : (Delete st id).1.bydigest =
      image.Digests.foldl (fun m d => pruneBucket m d id) st.bydigest := by
    simp [Delete, hrw, hlook, himg]
  have eidindex : (Delete st id).1.idindex = truncDelete st.idindex id := by
    simp [Delete, hrw, hlook, himg]
  have hD : id ∉ (Delete st id).1.byid := by
    rw [ebyid]
    intro hc
    have := (List.mem_filter.mp hc).2
    simp at this
  have hE : ∀ n ∈ image.Names, lookupA (Delete st id).1.byname n = none := by
    intro n hn
    rw [ebyname, lookupA_foldl_eraseA, if_pos hn]
  have hF : ∀ d' b', lookupA (Delete st id).1.bydigest d' = some b' → id ∉ b' := by
    intro d' b' hlb hid'
    rw [ebydigest] at hlb
    obtain ⟨hnin, b0, hl0, hid0⟩ :=
      foldl_pruneBucket_sound id image.Digests st.bydigest d' b' hlb hid'
    obtain ⟨hne0, hall⟩ := h8 (d', b0) (lookupA_mem hl0)
    obtain ⟨img', hm', hid'', hd''⟩ := hall id hid0
    dsimp only at hid'' hd''
    have heq : img' = image := id_inj_of_nodup h1 hm' hmem (by rw [hid'', hidm])
    exact hnin (heq ▸ hd'')
  have hbn : lookupA (Delete st id).1.byname id = none := by
    rw [ebyname, lookupA_foldl_eraseA]
    by_cases hidn : id ∈ image.Names
    · rw [if_pos hidn]
    · rw [if_neg hidn]
      rcases hcase : lookupA st.byname id with _ | ident'
      · rfl
      · obtain ⟨img', hm', hid'', hnm'⟩ := h6 (id, ident') (lookupA_mem hcase)
        dsimp only at hid'' hnm'
        by_cases hii : img'.ID = id
        · have heq : img' = image := id_inj_of_nodup h1 hm' hmem (by rw [hii, hidm])
          exact absurd (heq ▸ hnm') hidn
        · exact absurd hnm' (hnoname img' hm' hii)
  have htr : truncGet (Delete st id).1.idindex id = none := by
    rw [eidindex]
    by_cases hids : id = ""
    · rw [truncGet, if_pos hids]
    · rw [truncGet, if_neg hids]
      have hfil : (truncDelete st.idindex id).filter (fun i => strHasPref id i) = [] := by
        refine List.filter_eq_nil_iff.mpr ?_
        intro i hi
        rw [truncDelete] at hi
        obtain ⟨hi1, hi2⟩ := List.mem_filter.mp hi
        have hine : i ≠ id := by simpa using hi2
        obtain ⟨img', hm', hid''⟩ := h5 i hi1
        have hnid : img'.ID ≠ id := by
          rw [hid'']
          exact hine
        have hflat := hnopref img' hm' hnid
        rw [hid''] at hflat
        simp [hflat]
      rw [hfil]
  have hG : existsImage (Delete st id).1 id = false := by
    rw [existsImage, lookupId, if_neg hD, hbn, htr]
    rfl
  have hC : ∀ img' ∈ (Delete st id).1.images, img'.ID ≠ id := by
    intro img' hm'
    rw [eimages] at hm'
    have := (List.mem_filter.mp hm').2
    simpa using this
  exact ⟨eerr, eimages, hC, hD, hE, hF, hG⟩

/-- Witness for `delete_spec` at the concrete store `wStore`. -/
theorem delete_spec_witness :
    (wellFormed wStore ∧ wStore.rw = true ∧ wStore.locked = true ∧
        getImage wStore wid = some wImg) ∧
      (Delete wStore wid).2 = none ∧
      existsImage (Delete wStore wid).1 wid = false ∧
      wid ∉ (Delete wStore wid).1.byid ∧
      lookupA (Delete wStore wid).1.byname "localhost/foo" = none := by
  have h := delete_spec wStore wid wImg (by decide) rfl rfl (by decide)
    (by decide) (by decide)
  exact ⟨⟨by decide, rfl, rfl, by decide⟩, h.1, h.2.2.2.2.2.2, h.2.2.2.1,
    h.2.2.2.2.1 "localhost/foo" (by decide)⟩

/-- Counterexample to C4 as stated: `stC4` is a well-formed writable store
holding images with IDs `"ab"` and `"abcd"`; `Delete "ab"` succeeds, yet
`Exists "ab"` is still true afterwards, because the surviving ID `"abcd"`
makes `"ab"` an unambiguous prefix that the lookup resolves. -/
theorem delete_exists_cex :
    wellFormed stC4 ∧ stC4.rw = true ∧
      (Delete stC4 "ab").2 = none ∧
      existsImage (Delete stC4 "ab").1 "ab" = true :=
  ⟨by decide, rfl, by decide, by decide⟩

/-! Name bookkeeping lemmas for `updateNames`. -/

theorem nodup_dedupe_foldl :
    ∀ (l acc : List String), acc.Nodup →
      (l.foldl (fun acc n => if n ∈ acc then acc else acc ++ [n]) acc).Nodup
  | [], _, h => h
  | m :: l, acc, h => by
    rw [List.foldl_cons]
    by_cases hm : m ∈ acc
    · rw [if_pos hm]
      exact nodup_dedupe_foldl l acc h
    · rw [if_neg hm]
      exact nodup_dedupe_foldl l _ (by simp [List.nodup_append, h, hm])

theorem dedupeNames_nodup (l : List String) : (dedupeNames l).Nodup :=
  nodup_dedupe_foldl l [] List.nodup_nil

theorem applyNameOperation_nodup (old names : List String) (op : UpdateNameOperation)
    (h : old.Nodup) : (applyNameOperation old names op).Nodup := by
  cases op with
  | setNames => exact dedupeNames_nodup names
  | addNames => exact dedupeNames_nodup (old ++ names)
  | removeNames => exact h.filter _

theorem forall₂_mem_left {α β : Type} {R : α → β → Prop} :
    ∀ {l1 : List α} {l2 : List β}, List.Forall₂ R l1 l2 → ∀ {a : α}, a ∈ l1 →
      ∃ b ∈ l2, R a b := by
  intro l1
  induction l1 with
  | nil =>
    intro l2 h a ha
    exact absurd ha (List.not_mem_nil _)
  | cons x xs ih =>
    intro l2 h a ha
    cases h with
    | cons hxy htail =>
      rcases List.mem_cons.mp ha with rfl | ha'
      · exact ⟨_, List.mem_cons_self _ _, hxy⟩
      · obtain ⟨b, hb, hr⟩ := ih htail ha'
        exact ⟨b, List.mem_cons_of_mem _ hb, hr⟩

theorem forall₂_map_left_mem {α β : Type} {R S : α → β → Prop} (g : α → α) :
    ∀ {l1 : List α} {l2 : List β}, List.Forall₂ R l1 l2 →
      (∀ a b, b ∈ l2 → R a b → S (g a) b) → List.Forall₂ S (l1.map g) l2 := by
  intro l1
  induction l1 with
  | nil =>
    intro l2 h _
    cases h
    exact List.Forall₂.nil
  | cons x xs ih =>
    intro l2 h hst
    cases h with
    | cons hxy htail =>
      exact List.Forall₂.cons (hst _ _ (List.mem_cons_self _ _) hxy)
        (ih htail (fun a b hb hr => hst a b (List.mem_cons_of_mem _ hb) hr))

theorem forall₂_map_ids {l1 l2 : List Image}
    (h : List.Forall₂ (fun a b => a.ID = b.ID) l1 l2) :
    l1.map Image.ID = l2.map Image.ID := by
  induction h with
  | nil => rfl
  | cons hab _ ih => simp [List.map_cons, hab, ih]

theorem updateImageAt_ids (l : List Image) (tgt : String) (f : Image → Image)
    (hf : ∀ i, (f i).ID = i.ID) :
    (updateImageAt l tgt f).map Image.ID = l.map Image.ID := by
  rw [updateImageAt, List.map_map]
  refine List.map_congr_left ?_
  intro i _
  by_cases h : i.ID = tgt <;> simp [Function.comp, h, hf]

theorem updateNames_fold_inv (st : ImageStore) (image : Image) (id : String)
    (h1 : (st.images.map Image.ID).Nodup)
    (h6 : ∀ p ∈ st.byname, ∃ img ∈ st.images, img.ID = p.2 ∧ p.1 ∈ img.Names)
    (h7 : ∀ img ∈ st.images, ∀ n ∈ img.Names, lookupA st.byname n = some img.ID)
    (hmem : image ∈ st.images) (hidm : image.ID = id) :
    ∀ (rest P : List String) (imgs : List Image) (bn : List (String × String)),
      (P ++ rest).Nodup →
      List.Forall₂ (unRel id P) imgs st.images →
      (∀ m, lookupA bn m = if m ∈ P then some id
        else if m ∈ image.Names then none else lookupA st.byname m) →
      List.Forall₂ (unRel id (P ++ rest))
        ((rest.foldl (updateNamesStep id) (imgs, bn)).1) st.images
  | [], P, imgs, bn, hnd, hf, hbn => by simpa using hf
  | n :: rest, P, imgs, bn, hnd, hf, hbn => by
    rw [List.foldl_cons]
    have hnP : n ∉ P := fun hin =>
      (List.disjoint_of_nodup_append hnd) hin (List.mem_cons_self _ _)
    have hbnn : lookupA bn n =
        (if n ∈ image.Names then none else lookupA st.byname n) := by
      rw [hbn n, if_neg hnP]
    have hPP : P ++ n :: rest = (P ++ [n]) ++ rest := by
      rw [List.append_assoc]
      rfl
    rw [hPP]
    rw [hPP] at hnd
    -- the updated by-name map satisfies the clause for `P ++ [n]`
    have hbn' : ∀ m, lookupA (insertA bn n id) m = if m ∈ P ++ [n] then some id
        else if m ∈ image.Names then none else lookupA st.byname m := by
      intro m
      by_cases hm : m = n
      · subst hm
        rw [lookupA_insertA_self, if_pos (by simp)]
      · rw [lookupA_insertA_ne bn n m id (fun he => hm he.symm), hbn m]
        have hmiff : (m ∈ P ++ [n]) ↔ (m ∈ P) := by
          simp [List.mem_append, hm]
        by_cases hmP : m ∈ P
        · rw [if_pos hmP, if_pos (hmiff.mpr hmP)]
        · rw [if_neg hmP, if_neg (fun hc => hmP (hmiff.mp hc))]
    -- the updated record list satisfies the invariant for `P ++ [n]`
    have harg : List.Forall₂ (unRel id (P ++ [n])) (updateNamesStep id (imgs, bn) n).1
        st.images := by
      by_cases hni : n ∈ image.Names
      · -- the name currently belongs to the image itself: no holder in `bn`
        have hnone : lookupA bn n = none := by
          rw [hbnn, if_pos hni]
        have hres : (updateNamesStep id (imgs, bn) n).1 =
            imgs.map (fun i => if i.ID = id then addNameToHistory i n else i) := by
          rw [updateNamesStep, hnone]
          dsimp only
          rw [updateImageAt]
        rw [hres]
        refine forall₂_map_left_mem _ hf ?_
        intro a b hbmem hR
        by_cases ha : a.ID = id
        · rw [if_pos ha]
          refine ⟨hR.1, fun hcon => absurd ha hcon, fun _ => ?_⟩
          refine ⟨(hR.2.2 ha).1, ?_⟩
          intro m hmm
          rcases List.mem_append.mp hmm with hmP | hmn
          · exact (mem_dedupeNames m _).mpr
              (List.mem_cons_of_mem _ ((hR.2.2 ha).2 m hmP))
          · obtain rfl : m = n := by simpa using hmn
            exact (mem_dedupeNames m _).mpr (List.mem_cons_self _ _)
        · rw [if_neg ha]
          refine ⟨hR.1, fun _ => ?_, fun hcon => absurd hcon ha⟩
          refine ⟨(hR.2.1 ha).1, ?_⟩
          intro m hmm
          rcases List.mem_append.mp hmm with hmP | hmn
          · exact (hR.2.1 ha).2 m hmP
          · obtain rfl : m = n := by simpa using hmn
            intro hin
            have hnb : m ∈ b.Names := (hR.2.1 ha).1 hin
            have hlb := h7 b hbmem m hnb
            have hli := h7 image hmem m hni
            rw [hidm] at hli
            rw [hlb] at hli
            have : b.ID = id := by injection hli
            exact ha (hR.1.trans this)
      · rcases hlb : lookupA st.byname n with _ | other
        · -- nobody holds the name
          have hnone : lookupA bn n = none := by
            rw [hbnn, if_neg hni, hlb]
          have hres : (updateNamesStep id (imgs, bn) n).1 =
              imgs.map (fun i => if i.ID = id then addNameToHistory i n else i) := by
            rw [updateNamesStep, hnone]
            dsimp only
            rw [updateImageAt]
          rw [hres]
          refine forall₂_map_left_mem _ hf ?_
          intro a b hbmem hR
          by_cases ha : a.ID = id
          · rw [if_pos ha]
            refine ⟨hR.1, fun hcon => absurd ha hcon, fun _ => ?_⟩
            refine ⟨(hR.2.2 ha).1, ?_⟩
            intro m hmm
            rcases List.mem_append.mp hmm with hmP | hmn
            · exact (mem_dedupeNames m _).mpr
                (List.mem_cons_of_mem _ ((hR.2.2 ha).2 m hmP))
            · obtain rfl : m = n := by simpa using hmn
              exact (mem_dedupeNames m _).mpr (List.mem_cons_self _ _)
          · rw [if_neg ha]
            refine ⟨hR.1, fun _ => ?_, fun hcon => absurd hcon ha⟩
            refine ⟨(hR.2.1 ha).1, ?_⟩
            intro m hmm
            rcases List.mem_append.mp hmm with hmP | hmn
            · exact (hR.2.1 ha).2 m hmP
            · obtain rfl : m = n := by simpa using hmn
              intro hin
              have hnb : m ∈ b.Names := (hR.2.1 ha).1 hin
              have := h7 b hbmem m hnb
              rw [hlb] at this
              exact Option.noConfusion this
        · -- another image holds the name: it is stripped
          obtain ⟨img0, hm0, hid0, hn0⟩ := h6 (n, other) (lookupA_mem hlb)
          dsimp only at hid0 hn0
          have hother : other ≠ id := by
            intro he
            have : img0 = image :=
              id_inj_of_nodup h1 hm0 hmem (by rw [hid0, he, hidm])
            exact hni (this ▸ hn0)
          have hsome : lookupA bn n = some other := by
            rw [hbnn, if_neg hni, hlb]
          have hres : (updateNamesStep id (imgs, bn) n).1 =
              imgs.map (fun i =>
                (fun o => if o.ID = id then addNameToHistory o n else o)
                  ((fun o => if o.ID = other then removeNameI o n else o) i)) := by
            rw [updateNamesStep, hsome]
            dsimp only
            rw [updateImageAt, updateImageAt, List.map_map]
            rfl
          rw [hres]
          refine forall₂_map_left_mem _ hf ?_
          intro a b hbmem hR
          dsimp only
          by_cases ha : a.ID = id
          · have hao : ¬(a.ID = other) := by
              rw [ha]
              exact fun he => hother he.symm
            rw [if_neg hao, if_pos ha]
            refine ⟨hR.1, fun hcon => absurd ha hcon, fun _ => ?_⟩
            refine ⟨(hR.2.2 ha).1, ?_⟩
            intro m hmm
            rcases List.mem_append.mp hmm with hmP | hmn
            · exact (mem_dedupeNames m _).mpr
                (List.mem_cons_of_mem _ ((hR.2.2 ha).2 m hmP))
            · obtain rfl : m = n := by simpa using hmn
              exact (mem_dedupeNames m _).mpr (List.mem_cons_self _ _)
          · by_cases hao : a.ID = other
            · rw [if_pos hao, if_neg (by simpa [removeNameI] using ha)]
              refine ⟨hR.1, fun _ => ?_, fun hcon => absurd hcon (by simpa [removeNameI] using ha)⟩
              refine ⟨fun m hmf => (hR.2.1 ha).1 (List.mem_of_mem_filter hmf), ?_⟩
              intro m hmm
              rcases List.mem_append.mp hmm with hmP | hmn
              · intro hin
                exact (hR.2.1 ha).2 m hmP (List.mem_of_mem_filter hin)
              · obtain rfl : m = n := by simpa using hmn
                intro hin
                have := (List.mem_filter.mp hin).2
                simp at this
            · rw [if_neg hao, if_neg ha]
              refine ⟨hR.1, fun _ => ?_, fun hcon => absurd hcon ha⟩
              refine ⟨(hR.2.1 ha).1, ?_⟩
              intro m hmm
              rcases List.mem_append.mp hmm with hmP | hmn
              · exact (hR.2.1 ha).2 m hmP
              · obtain rfl : m = n := by simpa using hmn
                intro hin
                have hnb : m ∈ b.Names := (hR.2.1 ha).1 hin
                have := h7 b hbmem m hnb
                rw [hlb] at this
                have hbo : b.ID = other := by
                  injection this with hv
                  exact hv.symm
                exact hao (hR.1.trans hbo)
    have hbn2 : (updateNamesStep id (imgs, bn) n).2 = insertA bn n id := rfl
    have := updateNames_fold_inv st image id h1 h6 h7 hmem hidm rest (P ++ [n])
      (updateNamesStep id (imgs, bn) n).1 (updateNamesStep id (imgs, bn) n).2
      hnd harg (by rw [hbn2]; exact hbn')
    simpa using this

/-- C5: a successful `updateNames` installs exactly the name set computed
by `applyNameOperation` on the image's old names, records every one of
those names in the image's `NamesHistory` (each is prepended during the
loop), strips each of them from every other image (last writer wins), and
preserves the set of record identities. -/
theorem update_names_spec (st : ImageStore) (id : String) (names : List String)
    (op : UpdateNameOperation) (image : Image)
    (hwf : wellFormed st) (hrw : st.rw = true) (hlk : st.locked = true)
    (himg : getImage st id = some image) :
    (updateNames st id names op).2 = none ∧
      (updateNames st id names op).1.images.map Image.ID = st.images.map Image.ID ∧
      (∀ img' ∈ (updateNames st id names op).1.images, img'.ID = id →
        img'.Names = applyNameOperation image.Names names op ∧
        ∀ n ∈ applyNameOperation image.Names names op, n ∈ img'.NamesHistory) ∧
      (∀ img' ∈ (updateNames st id names op).1.images, img'.ID ≠ id →
        ∀ n ∈ applyNameOperation image.Names names op, n ∉ img'.Names) := by
  obtain ⟨h1, h2, h3, h4, h5, h6, h7, h8, h9, h10⟩ := hwf
  obtain ⟨hmem, hidm⟩ := getImage_mem himg
  have hbyid : id ∈ st.byid := by
    rw [← hidm]
    exact h4 image hmem
  have hlook : lookupId st id = some id := lookupId_of_byid hbyid
  have hnodup : (applyNameOperation image.Names names op).Nodup :=
    applyNameOperation_nodup _ _ _ (h2 image hmem)
  have hq := updateNames_fold_inv st image id h1 h6 h7 hmem hidm
    (applyNameOperation image.Names names op) [] st.images
    (image.Names.foldl (fun m n => eraseA m n) st.byname)
    (by simpa using hnodup)
    (List.forall₂_same.mpr (fun a ha => ⟨rfl,
      fun _ => ⟨fun x hx => hx, fun n hn => absurd hn (List.not_mem_nil n)⟩,
      fun _ => ⟨rfl, fun n hn => absurd hn (List.not_mem_nil n)⟩⟩))
    (by
      intro m
      rw [lookupA_foldl_eraseA, if_neg (List.not_mem_nil m)])
  simp only [List.nil_append] at hq
  have eimg : (updateNames st id names op).1.images =
      updateImageAt ((applyNameOperation image.Names names op).foldl
          (updateNamesStep id)
          (st.images, image.Names.foldl (fun m n => eraseA m n) st.byname)).1 id
        (fun o => { o with Names := applyNameOperation image.Names names op }) := by
    simp [updateNames, hrw, hlook, himg]
  have eerr : (updateNames st id names op).2 = none := by
    simp [updateNames, hrw, hlook, himg, saveErr, hlk]
  refine ⟨eerr, ?_, ?_, ?_⟩
  · have hids := updateImageAt_ids
      ((applyNameOperation image.Names names op).foldl (updateNamesStep id)
        (st.images, image.Names.foldl (fun m n => eraseA m n) st.byname)).1 id
      (fun o => { o with Names := applyNameOperation image.Names names op })
      (fun i => rfl)
    rw [eimg, hids]
    exact forall₂_map_ids (List.Forall₂.imp (fun a b hR => hR.1) hq)
  · intro img' hmem' hid'
    rw [eimg, updateImageAt] at hmem'
    obtain ⟨a, ha, hEq⟩ := List.mem_map.mp hmem'
    obtain ⟨b, hbmem, hR⟩ := forall₂_mem_left hq ha
    by_cases haid : a.ID = id
    · rw [if_pos haid] at hEq
      subst hEq
      exact ⟨rfl, fun n hn => (hR.2.2 haid).2 n hn⟩
    · rw [if_neg haid] at hEq
      subst hEq
      exact absurd hid' haid
  · intro img' hmem' hid'
    rw [eimg, updateImageAt] at hmem'
    obtain ⟨a, ha, hEq⟩ := List.mem_map.mp hmem'
    obtain ⟨b, hbmem, hR⟩ := forall₂_mem_left hq ha
    by_cases haid : a.ID = id
    · rw [if_pos haid] at hEq
      subst hEq
      exact absurd haid hid'
    · rw [if_neg haid] at hEq
      subst hEq
      exact fun n hn => (hR.2.1 haid).2 n hn

/-- Witness for `update_names_spec`: renaming the single image of `wStore`
to `localhost/bar`. -/
theorem update_names_spec_witness :
    (wellFormed wStore ∧ wStore.rw = true ∧ wStore.locked = true ∧
        getImage wStore wid = some wImg) ∧
      (updateNames wStore wid ["localhost/bar"] .setNames).2 = none ∧
      (updateNames wStore wid ["localhost/bar"] .setNames).1.images.map Image.ID =
        wStore.images.map Image.ID ∧
      (wImgRenamed.Names = applyNameOperation wImg.Names ["localhost/bar"] .setNames ∧
        ∀ n ∈ applyNameOperation wImg.Names ["localhost/bar"] .setNames,
          n ∈ wImgRenamed.NamesHistory) := by
  have h := update_names_spec wStore wid ["localhost/bar"] .setNames wImg
    (by decide) rfl rfl (by decide)
  exact ⟨⟨by decide, rfl, rfl, by decide⟩, h.1, h.2.1,
    h.2.2.1 wImgRenamed (by decide) (by decide)⟩

/-! Support lemmas for the `SetBigData` frame property. -/

theorem mem_insertA {α : Type} :
    ∀ (l : List (String × α)) (k : String) (v : α) (q : String × α),
      q ∈ insertA l k v → q = (k, v) ∨ q ∈ l
  | [], k, v, q, h => by
    rw [insertA] at h
    exact Or.inl (by simpa using h)
  | p :: rest, k, v, q, h => by
    rw [insertA] at h
    by_cases hp : p.1 = k
    · rw [if_pos hp] at h
      rcases List.mem_cons.mp h with rfl | h'
      · exact Or.inl rfl
      · exact Or.inr (List.mem_cons_of_mem _ h')
    · rw [if_neg hp] at h
      rcases List.mem_cons.mp h with rfl | h'
      · exact Or.inr (List.mem_cons_self _ _)
      · rcases mem_insertA rest k v q h' with h'' | h''
        · exact Or.inl h''
        · exact Or.inr (List.mem_cons_of_mem _ h'')

theorem recomputeAux_ok_inv :
    ∀ (l : List (String × DigestStr)) (acc res : List DigestStr),
      recomputeAux l acc = .ok res →
      ∀ q ∈ l, bigDataNameIsManifest q.1 = true → digestValid q.2 = true
  | [], _, _, _, q, hq, _ => absurd hq (List.not_mem_nil _)
  | (name, d) :: rest, acc, res, h, q, hq, hman => by
    rw [recomputeAux] at h
    rcases List.mem_cons.mp hq with rfl | hq'
    · rw [if_neg (by simp [hman])] at h
      by_cases hv : digestValid d = false
      · rw [if_pos hv] at h
        exact absurd h (by simp)
      · simpa using hv
    · by_cases hm : bigDataNameIsManifest name = false
      · rw [if_pos hm] at h
        exact recomputeAux_ok_inv rest acc res h q hq' hman
      · rw [if_neg hm] at h
        by_cases hv : digestValid d = false
        · rw [if_pos hv] at h
          exact absurd h (by simp)
        · rw [if_neg hv] at h
          by_cases hd : d ∈ acc
          · rw [if_pos hd] at h
            exact recomputeAux_ok_inv rest acc res h q hq' hman
          · rw [if_neg hd] at h
            exact recomputeAux_ok_inv rest _ res h q hq' hman

theorem recomputeCore_ok_inv (d0 : DigestStr) (bdd : List (String × DigestStr))
    (p : DigestStr × List DigestStr) (h : recomputeCore d0 bdd = .ok p) :
    (d0 ≠ "" → digestValid d0 = true) ∧
      ∀ q ∈ bdd, bigDataNameIsManifest q.1 = true → digestValid q.2 = true := by
  rw [recomputeCore] at h
  by_cases h0 : d0 = ""
  · rw [if_pos h0] at h
    rcases haux : recomputeAux bdd [] with e | valid
    · rw [haux] at h
      exact absurd h (by simp)
    · exact ⟨fun hne => absurd h0 hne, recomputeAux_ok_inv bdd [] valid haux⟩
  · rw [if_neg h0] at h
    by_cases hv : digestValid d0 = false
    · rw [if_pos hv] at h
      exact absurd h (by simp)
    · rcases haux : recomputeAux bdd [d0] with e | valid
      · rw [if_neg hv, haux] at h
        exact absurd h (by simp)
      · exact ⟨fun _ => by simpa using hv, recomputeAux_ok_inv bdd [d0] valid haux⟩

theorem recomputeCore_isOk (d0 : DigestStr) (bdd : List (String × DigestStr))
    (hd : d0 ≠ "" → digestValid d0 = true)
    (hall : ∀ q ∈ bdd, bigDataNameIsManifest q.1 = true → digestValid q.2 = true) :
    (recomputeCore d0 bdd).isOk = true := by
  rw [recomputeCore]
  by_cases h0 : d0 = ""
  · rw [if_pos h0]
    have hok := recomputeAux_ok_of_valid bdd [] hall
    rcases haux : recomputeAux bdd [] with e | valid
    · rw [haux] at hok
      exact absurd hok (by simp [Except.isOk, Except.toBool])
    · rfl
  · rw [if_neg h0, if_neg (by simp [hd h0])]
    have hok := recomputeAux_ok_of_valid bdd [d0] hall
    rcases haux : recomputeAux bdd [d0] with e | valid
    · rw [haux] at hok
      exact absurd hok (by simp [Except.isOk, Except.toBool])
    · rfl

theorem updateImageAt_self (st : ImageStore) (id : String) (image : Image)
    (h1 : (st.images.map Image.ID).Nodup) (himg : getImage st id = some image) :
    updateImageAt st.images id (fun _ => image) = st.images := by
  obtain ⟨hmem, hidm⟩ := getImage_mem himg
  rw [updateImageAt]
  have hall : ∀ i ∈ st.images, (if i.ID = id then image else i) = i := by
    intro i hi
    by_cases h : i.ID = id
    · rw [if_pos h]
      exact (id_inj_of_nodup h1 hi hmem (by rw [h, hidm])).symm
    · rw [if_neg h]
  calc st.images.map (fun i => if i.ID = id then image else i)
      = st.images.map (fun i => i) := List.map_congr_left hall
    _ = st.images := List.map_id' st.images

theorem bigDataUpdatedImage_Digest (image : Image) (key : String) (len : Int)
    (nd : DigestStr) : (bigDataUpdatedImage image key len nd).Digest = image.Digest := by
  rw [bigDataUpdatedImage]
  dsimp only
  split <;> rfl

theorem bigDataUpdatedImage_bdd (image : Image) (key : String) (len : Int)
    (nd : DigestStr) : (bigDataUpdatedImage image key len nd).BigDataDigests =
      insertA image.BigDataDigests key nd := by
  rw [bigDataUpdatedImage]
  dsimp only
  split <;> rfl

theorem bigDataUpdatedImage_self (image : Image) (key : String) (len : Int)
    (nd : DigestStr) (hk : key ∈ image.BigDataNames)
    (hs1 : lookupA image.BigDataSizes key = some len)
    (hs2 : lookupA image.BigDataDigests key = some nd) :
    bigDataUpdatedImage image key len nd = image := by
  rw [bigDataUpdatedImage]
  dsimp only
  rw [insertA_self_of_lookup _ _ _ hs1, insertA_self_of_lookup _ _ _ hs2]
  rw [if_neg (by simpa using hk)]

theorem bigDataSaveFlag_iff (image : Image) (key : String) (len : Int) (nd : DigestStr) :
    bigDataSaveFlag image key len nd = true ↔
      (key ∉ image.BigDataNames ∨ lookupA image.BigDataSizes key ≠ some len ∨
        lookupA image.BigDataDigests key ≠ some nd) := by
  rw [bigDataSaveFlag]
  simp only [Bool.or_eq_true, decide_eq_true_eq]
  tauto

/-- C6: a successful `SetBigData` always writes the blob, but saves the
snapshot exactly when some cached metadata changed: the key is new to
`BigDataNames`, or the cached size differs from the new size, or the
cached digest differs from the newly computed digest; when nothing
changed, the record list (hence the persisted snapshot content) is left
unchanged. -/
theorem set_big_data_frame (st : ImageStore) (id key : String) (data : List Nat)
    (digestManifest : Option (List Nat → Except String DigestStr)) (image : Image)
    (nd : DigestStr)
    (hwf : wellFormed st) (hrw : st.rw = true) (hlk : st.locked = true)
    (hkey : key ≠ "") (himg : getImage st id = some image)
    (hnd : computeBigDataDigest key data digestManifest = .ok nd)
    (hvalid : bigDataNameIsManifest key = true → digestValid nd = true) :
    (SetBigData st id key data digestManifest).2.2 = none ∧
      (SetBigData st id key data digestManifest).2.1.blobWritten = true ∧
      ((SetBigData st id key data digestManifest).2.1.saved = true ↔
        (key ∉ image.BigDataNames ∨
          lookupA image.BigDataSizes key ≠ some ((data.length : Int)) ∨
          lookupA image.BigDataDigests key ≠ some nd)) ∧
      ((SetBigData st id key data digestManifest).2.1.saved = false →
        (SetBigData st id key data digestManifest).1.images = st.images) := by
  obtain ⟨h1, h2, h3, h4, h5, h6, h7, h8, h9, h10⟩ := hwf
  obtain ⟨hmem, hidm⟩ := getImage_mem himg
  have hbyid : id ∈ st.byid := by
    rw [← hidm]
    exact h4 image hmem
  have hlook : lookupId st id = some id := lookupId_of_byid hbyid
  have hrwf : ¬(st.rw = false) := by simp [hrw]
  -- digest validity facts from the image's recompute-consistency
  have hrecimg := h10 image hmem
  rw [recomputeDigests] at hrecimg
  rcases hc0 : recomputeCore image.Digest image.BigDataDigests with e | q
  · rw [hc0] at hrecimg
    exact absurd hrecimg (by simp)
  rw [hc0] at hrecimg
  have himgEq : ({ image with Digest := q.1, Digests := q.2 } : Image) = image := by
    obtain ⟨d, ds⟩ := q
    exact Except.ok.inj hrecimg
  obtain ⟨d0ne, hallold⟩ := recomputeCore_ok_inv _ _ _ hc0
  have hallnew : ∀ p ∈ insertA image.BigDataDigests key nd,
      bigDataNameIsManifest p.1 = true → digestValid p.2 = true := by
    intro p hp hman
    rcases mem_insertA _ _ _ _ hp with rfl | hp'
    · exact hvalid hman
    · exact hallold p hp' hman
  have hcoreOk := recomputeCore_isOk image.Digest (insertA image.BigDataDigests key nd)
    d0ne hallnew
  rcases hcore : recomputeCore image.Digest (insertA image.BigDataDigests key nd)
    with e | p
  · rw [hcore] at hcoreOk
    exact absurd hcoreOk (by simp [Except.isOk, Except.toBool])
  obtain ⟨dd, dds⟩ := p
  have hX : recomputeDigests (bigDataUpdatedImage image key ((data.length : Int)) nd) =
      .ok { bigDataUpdatedImage image key ((data.length : Int)) nd with
        Digest := dd, Digests := dds } := by
    rw [recomputeDigests]
    dsimp only
    rw [bigDataUpdatedImage_Digest, bigDataUpdatedImage_bdd, hcore]
  have hfull : SetBigData st id key data digestManifest =
      if bigDataSaveFlag image key ((data.length : Int)) nd = true then
        ({ st with
            images := updateImageAt st.images id (fun _ =>
              { bigDataUpdatedImage image key ((data.length : Int)) nd with
                Digest := dd, Digests := dds })
            bydigest := dds.foldl (fun m d => addIfMissing m d id)
              (image.Digests.foldl (fun m d => pruneBucket m d id) st.bydigest) },
          ⟨true, true⟩, saveErr st)
      else
        ({ st with
            images := updateImageAt st.images id (fun _ =>
              { bigDataUpdatedImage image key ((data.length : Int)) nd with
                Digest := dd, Digests := dds })
            bydigest := dds.foldl (fun m d => addIfMissing m d id)
              (image.Digests.foldl (fun m d => pruneBucket m d id) st.bydigest) },
          ⟨true, false⟩, none) := by
    simp only [SetBigData, if_neg hkey, if_neg hrwf, hlook, himg, hnd, hX]
  by_cases hsave : bigDataSaveFlag image key ((data.length : Int)) nd = true
  · rw [hfull, if_pos hsave]
    refine ⟨by simp [saveErr, hrw, hlk], rfl, ?_, ?_⟩
    · constructor
      · intro _
        exact (bigDataSaveFlag_iff image key ((data.length : Int)) nd).mp hsave
      · intro _
        rfl
    · intro hc
      exact absurd hc (by simp)
  · rw [hfull, if_neg hsave]
    have hnot : ¬(key ∉ image.BigDataNames ∨
        lookupA image.BigDataSizes key ≠ some ((data.length : Int)) ∨
        lookupA image.BigDataDigests key ≠ some nd) := by
      intro hc
      exact hsave ((bigDataSaveFlag_iff image key ((data.length : Int)) nd).mpr hc)
    push_neg at hnot
    obtain ⟨hk, hs1, hs2⟩ := hnot
    refine ⟨rfl, rfl, ?_, ?_⟩
    · constructor
      · intro hc
        exact absurd hc (by simp)
      · intro hc
        exact absurd hc (by simp [hk, hs1, hs2])
    · intro _
      dsimp only
      have hXi : bigDataUpdatedImage image key ((data.length : Int)) nd = image :=
        bigDataUpdatedImage_self image key _ nd hk hs1 hs2
      have hq : recomputeCore image.Digest image.BigDataDigests = .ok (dd, dds) := by
        rw [← insertA_self_of_lookup image.BigDataDigests key nd hs2]
        exact hcore
      rw [hc0] at hq
      obtain rfl : q = (dd, dds) := Except.ok.inj hq
      have hdd : dd = image.Digest := congrArg Image.Digest himgEq
      have hdds : dds = image.Digests := congrArg Image.Digests himgEq
      rw [hXi, hdd, hdds]
      have heta : ({ image with Digest := image.Digest, Digests := image.Digests } : Image)
          = image := rfl
      rw [heta]
      exact updateImageAt_self st id image h1 himg

/-- Witness for `set_big_data_frame`: rewriting the `manifest` blob of
`wStore` with data of the cached size and digest writes the blob but does
not save, and the record list is unchanged. -/
theorem set_big_data_frame_witness :
    (wellFormed wStore ∧ wStore.rw = true ∧ wStore.locked = true ∧
        ("manifest" : String) ≠ "" ∧ getImage wStore wid = some wImg ∧
        computeBigDataDigest "manifest" [1, 2, 3] (some (fun _ => .ok dA)) = .ok dA) ∧
      (SetBigData wStore wid "manifest" [1, 2, 3] (some (fun _ => .ok dA))).2.2 = none ∧
      (SetBigData wStore wid "manifest" [1, 2, 3]
          (some (fun _ => .ok dA))).2.1.blobWritten = true ∧
      (SetBigData wStore wid "manifest" [1, 2, 3]
          (some (fun _ => .ok dA))).2.1.saved = false ∧
      (SetBigData wStore wid "manifest" [1, 2, 3]
          (some (fun _ => .ok dA))).1.images = wStore.images := by
  have h := set_big_data_frame wStore wid "manifest" [1, 2, 3]
    (some (fun _ => .ok dA)) wImg dA (by decide) rfl rfl (by decide) (by decide) rfl
    (fun _ => by decide)
  have hsaved : (SetBigData wStore wid "manifest" [1, 2, 3]
      (some (fun _ => .ok dA))).2.1.saved = false := by
    rcases hb : (SetBigData wStore wid "manifest" [1, 2, 3]
        (some (fun _ => .ok dA))).2.1.saved with _ | _
    · rfl
    · have := (h.2.2.1).mp hb
      rcases this with hc | hc | hc
      · exact absurd hc (by decide)
      · exact absurd hc (by decide)
      · exact absurd hc (by decide)
  exact ⟨⟨by decide, rfl, rfl, by decide, by decide, rfl⟩,
    h.1, h.2.1, hsaved, h.2.2.2 hsaved⟩

/-! Lemmas about the load-time conflict pass. -/

theorem stripAt_length : ∀ (acc : List Image) (k : Nat) (n : String),
    (stripAt acc k n).length = acc.length
  | [], _, _ => rfl
  | _ :: rest, 0, n => rfl
  | a :: rest, k + 1, n => by
    simp [stripAt, stripAt_length rest k n]

theorem stripAt_getD : ∀ (acc : List Image) (k j : Nat) (n : String), j < acc.length →
    (stripAt acc k n).getD j emptyImage =
      (if j = k then removeNameI (acc.getD j emptyImage) n else acc.getD j emptyImage)
  | [], _, j, _, h => absurd h (by simp)
  | a :: rest, 0, 0, n, _ => by simp [stripAt]
  | a :: rest, 0, j + 1, n, _ => by simp [stripAt]
  | a :: rest, k + 1, 0, n, _ => by simp [stripAt]
  | a :: rest, k + 1, j + 1, n, h => by
    have ih := stripAt_getD rest k j n (by simpa using h)
    have hstep : stripAt (a :: rest) (k + 1) n = a :: stripAt rest k n := rfl
    rw [hstep, List.getD_cons_succ, List.getD_cons_succ, ih]
    by_cases hjk : j = k
    · rw [if_pos hjk, if_pos (by rw [hjk])]
    · rw [if_neg hjk, if_neg (by omega)]

theorem claimsB_cons (a : Image) (l : List Image) (n : String) :
    claimsB (a :: l) n = (decide (n ∈ a.Names) || claimsB l n) := by
  simp [claimsB]

theorem claimsB_eq_true {l : List Image} {n : String} :
    claimsB l n = true ↔ ∃ img ∈ l, n ∈ img.Names := by
  simp [claimsB]

theorem claimsB_append (l : List Image) (img : Image) (n : String) :
    claimsB (l ++ [img]) n = (claimsB l n || decide (n ∈ img.Names)) := by
  simp [claimsB, List.any_append]

theorem stripConflicts_spec :
    ∀ (names : List String) (posOf : List (String × Nat)) (acc : List Image) (save : Bool),
      (stripConflicts posOf names acc save).1.length = acc.length ∧
      (∀ j, j < acc.length → (stripConflicts posOf names acc save).1.getD j emptyImage =
        { acc.getD j emptyImage with
          Names := (acc.getD j emptyImage).Names.filter
            (fun m => !(decide (m ∈ names) && decide (lookupA posOf m = some j))) }) ∧
      (stripConflicts posOf names acc save).2 =
        (save || names.any (fun n => (lookupA posOf n).isSome))
  | [], posOf, acc, save => by
    refine ⟨rfl, ?_, by simp [stripConflicts]⟩
    intro j hj
    have hfil : (acc.getD j emptyImage).Names.filter
        (fun m => !(decide (m ∈ ([] : List String)) && decide (lookupA posOf m = some j))) =
        (acc.getD j emptyImage).Names :=
      List.filter_eq_self.mpr (fun a _ => by simp)
    show acc.getD j emptyImage = _
    rw [hfil]
  | n :: names, posOf, acc, save => by
    rw [stripConflicts]
    rcases hl : lookupA posOf n with _ | k
    · obtain ⟨hlen, hget, hsave⟩ := stripConflicts_spec names posOf acc save
      refine ⟨hlen, ?_, ?_⟩
      · intro j hj
        rw [hget j hj]
        have hNames : (acc.getD j emptyImage).Names.filter
            (fun m => !(decide (m ∈ names) && decide (lookupA posOf m = some j))) =
            (acc.getD j emptyImage).Names.filter
              (fun m => !(decide (m ∈ n :: names) && decide (lookupA posOf m = some j))) := by
          refine List.filter_congr ?_
          intro m _
          by_cases hmn : m = n
          · subst hmn
            simp [hl]
          · simp [List.mem_cons, hmn]
        rw [hNames]
      · rw [hsave]
        simp [hl]
    · obtain ⟨hlen, hget, hsave⟩ := stripConflicts_spec names posOf (stripAt acc k n) true
      rw [stripAt_length] at hlen
      refine ⟨hlen, ?_, ?_⟩
      · intro j hj
        rw [hget j (by rw [stripAt_length]; exact hj), stripAt_getD acc k j n hj]
        by_cases hjk : j = k
        · subst hjk
          rw [if_pos rfl]
          have hNames : ((removeNameI (acc.getD j emptyImage) n).Names.filter
              (fun m => !(decide (m ∈ names) && decide (lookupA posOf m = some j)))) =
              (acc.getD j emptyImage).Names.filter
                (fun m => !(decide (m ∈ n :: names) && decide (lookupA posOf m = some j))) := by
            rw [removeNameI]
            dsimp only
            rw [stringSliceWithoutValue, List.filter_filter]
            refine List.filter_congr ?_
            intro m _
            by_cases hmn : m = n
            · subst hmn
              simp [hl]
            · simp [List.mem_cons, hmn]
          rw [hNames]
          rfl
        · rw [if_neg hjk]
          have hNames : (acc.getD j emptyImage).Names.filter
              (fun m => !(decide (m ∈ names) && decide (lookupA posOf m = some j))) =
              (acc.getD j emptyImage).Names.filter
                (fun m => !(decide (m ∈ n :: names) && decide (lookupA posOf m = some j))) := by
            refine List.filter_congr ?_
            intro m _
            by_cases hmn : m = n
            · subst hmn
              have : ¬(some k = some j) := fun hc => hjk (by injection hc with hc; exact hc.symm)
              simp [hl, this]
            · simp [List.mem_cons, hmn]
          rw [hNames]
      · rw [hsave]
        simp [hl]

theorem lookupA_foldl_insertA {α : Type} :
    ∀ (names : List String) (m0 : List (String × α)) (v : α) (x : String),
      lookupA (names.foldl (fun m n => insertA m n v) m0) x =
        if x ∈ names then some v else lookupA m0 x
  | [], m0, v, x => by simp
  | n :: rest, m0, v, x => by
    rw [List.foldl_cons, lookupA_foldl_insertA rest]
    by_cases hr : x ∈ rest
    · simp [hr, List.mem_cons]
    · rw [if_neg hr]
      by_cases hx : x = n
      · subst hx
        rw [if_pos (List.mem_cons_self _ _), lookupA_insertA_self]
      · rw [if_neg (by simp [List.mem_cons, hx, hr]),
          lookupA_insertA_ne _ _ _ _ (fun he => hx he.symm)]

theorem dupNameExists_cons (a : Image) (l : List Image) :
    dupNameExists (a :: l) ↔ (∃ n ∈ a.Names, claimsB l n = true) ∨ dupNameExists l :=
  Iff.rfl

theorem dupNameExists_append :
    ∀ (l : List Image) (img : Image),
      dupNameExists (l ++ [img]) ↔
        dupNameExists l ∨ ∃ n ∈ img.Names, claimsB l n = true
  | [], img => by
    simp [dupNameExists, claimsB]
  | a :: l, img => by
    rw [List.cons_append, dupNameExists_cons, dupNameExists_cons,
      dupNameExists_append l img]
    constructor
    · rintro (⟨n, hn, hc⟩ | hd | ⟨n, hn, hc⟩)
      · rw [claimsB_append] at hc
        rcases Bool.or_eq_true_iff.mp hc with hc | hc
        · exact Or.inl (Or.inl ⟨n, hn, hc⟩)
        · exact Or.inr ⟨n, by simpa using hc, by simp [claimsB_cons, hn]⟩
      · exact Or.inl (Or.inr hd)
      · exact Or.inr ⟨n, hn, by rw [claimsB_cons, hc]; simp⟩
    · rintro ((⟨n, hn, hc⟩ | hd) | ⟨n, hn, hc⟩)
      · exact Or.inl ⟨n, hn, by rw [claimsB_append, hc]; simp⟩
      · exact Or.inr (Or.inl hd)
      · rw [claimsB_cons] at hc
        rcases Bool.or_eq_true_iff.mp hc with hc | hc
        · exact Or.inl ⟨n, by simpa using hc, by rw [claimsB_append]; simp [hn]⟩
        · exact Or.inr (Or.inr ⟨n, hn, hc⟩)

theorem dupNameExists_of_claim :
    ∀ (l : List Image) (k : Nat), k < l.length →
      ∀ n ∈ (l.getD k emptyImage).Names,
        claimsB (l.drop (k + 1)) n = true → dupNameExists l
  | [], k, h, _, _, _ => absurd h (by simp)
  | a :: l, 0, _, n, hn, hc => Or.inl ⟨n, by simpa using hn, by simpa using hc⟩
  | a :: l, k + 1, h, n, hn, hc =>
    Or.inr (dupNameExists_of_claim l k (by simpa using h) n (by simpa using hn)
      (by simpa using hc))

theorem getD_mem_of_lt {l : List Image} {k : Nat} (h : k < l.length) :
    l.getD k emptyImage ∈ l := by
  rw [List.getD_eq_getElem l emptyImage h]
  exact List.getElem_mem h

theorem claimsB_drop_of_getD :
    ∀ (l : List Image) (m j : Nat), m ≤ j → j < l.length →
      ∀ n ∈ (l.getD j emptyImage).Names, claimsB (l.drop m) n = true
  | l, 0, j, _, hj, n, hn => by
    rw [List.drop_zero]
    exact claimsB_eq_true.mpr ⟨l.getD j emptyImage, getD_mem_of_lt hj, hn⟩
  | [], m + 1, j, _, hj, _, _ => absurd hj (by simp)
  | a :: l, m + 1, 0, hm, _, _, _ => absurd hm (by omega)
  | a :: l, m + 1, j + 1, hm, hj, n, hn =>
    claimsB_drop_of_getD l m j (by omega) (by simpa using hj) n (by simpa using hn)

theorem claimsB_drop_eq_false (l : List Image) (m : Nat) (n : String)
    (h : ∀ k, m ≤ k → k < l.length → n ∉ (l.getD k emptyImage).Names) :
    claimsB (l.drop m) n = false := by
  rcases hcl : claimsB (l.drop m) n with _ | _
  · rfl
  · exfalso
    obtain ⟨img, hmem, hn⟩ := claimsB_eq_true.mp hcl
    obtain ⟨i, hi, hEq⟩ := List.mem_iff_getElem.mp hmem
    have hlen : i + m < l.length := by
      rw [List.length_drop] at hi
      omega
    have hEq2 : l.getD (m + i) emptyImage = img := by
      rw [List.getD_eq_getElem l emptyImage (by omega)]
      rw [← hEq, List.getElem_drop]
    exact h (m + i) (by omega) (by omega) (by rw [hEq2]; exact hn)

theorem recomputeDigests_names {i r : Image} (h : recomputeDigests i = .ok r) :
    r.Names = i.Names := by
  rw [recomputeDigests] at h
  rcases hc : recomputeCore i.Digest i.BigDataDigests with e | p
  · rw [hc] at h
    exact absurd h (by simp)
  · rw [hc] at h
    obtain ⟨d, ds⟩ := p
    have := Except.ok.inj h
    rw [← this]

theorem loadedRecOf_names (rw : Bool) (i : Image)
    (h : (recomputeDigests i).isOk = true) : (loadedRecOf rw i).Names = i.Names := by
  rw [loadedRecOf]
  rcases hr : recomputeDigests i with e | r
  · rw [hr] at h
    exact absurd h (by simp [Except.isOk, Except.toBool])
  · show r.Names = i.Names
    exact recomputeDigests_names hr

theorem loadStep_inv (rw : Bool) (processed : List Image) (s : LoadState) (img : Image)
    (hrec : (recomputeDigests img).isOk = true) (hinv : loadInv processed rw s) :
    ∃ s2, loadStep rw s img = .ok s2 ∧ loadInv (processed ++ [img]) rw s2 := by
  obtain ⟨h0, h1len, h2get, h3pos, h4some, h5save⟩ := hinv
  rcases hr : recomputeDigests img with e | img2
  · rw [hr] at hrec
    exact absurd hrec (by simp [Except.isOk, Except.toBool])
  obtain ⟨hslen, hsget, hssave⟩ := stripConflicts_spec img.Names s.posOf s.acc s.shouldSave
  have hstep : loadStep rw s img = .ok
      ⟨(stripConflicts s.posOf img.Names s.acc s.shouldSave).1 ++
          [{ img2 with ReadOnly := !rw }],
        img.Names.foldl (fun m n => insertA m n
          (stripConflicts s.posOf img.Names s.acc s.shouldSave).1.length) s.posOf,
        (stripConflicts s.posOf img.Names s.acc s.shouldSave).2⟩ := by
    rw [loadStep, hr]
  set t := processed.length with ht
  have hacclen : (stripConflicts s.posOf img.Names s.acc s.shouldSave).1.length = t := by
    rw [hslen, h1len]
  refine ⟨_, hstep, ?_, ?_, ?_, ?_, ?_, ?_⟩
  · -- every processed record recomputes
    intro img' hm'
    rcases List.mem_append.mp hm' with hm' | hm'
    · exact h0 img' hm'
    · obtain rfl : img' = img := by simpa using hm'
      rw [hr]
      rfl
  · -- length
    simp [hacclen]
  · -- accumulated records are the expected ones
    intro k hk
    have hgetat : (processed ++ [img]).getD k emptyImage =
        (if k = t then img else processed.getD k emptyImage) := by
      by_cases hkt : k = t
      · subst hkt
        rw [if_pos rfl, List.getD_append_right _ _ _ _ (le_refl _)]
        simp
      · have hklt : k < t := by
          simp only [List.length_append, List.length_singleton] at hk
          omega
        rw [if_neg hkt, List.getD_append _ _ _ _ hklt]
    by_cases hkt : k = t
    · subst hkt
      rw [List.getD_append_right _ _ _ _ (by rw [hacclen])]
      rw [hacclen]
      simp only [Nat.sub_self, List.getD_cons_zero]
      rw [loadExpected, hgetat, if_pos rfl]
      have hbase : loadedRecOf rw img = { img2 with ReadOnly := !rw } := by
        rw [loadedRecOf, hr]
      have hdropnil : (processed ++ [img]).drop (t + 1) = [] := by
        apply List.drop_eq_nil_of_le
        simp
      rw [hbase, hdropnil]
      have hfil : ({ img2 with ReadOnly := !rw } : Image).Names.filter
          (fun n => !claimsB [] n) = ({ img2 with ReadOnly := !rw } : Image).Names :=
        List.filter_eq_self.mpr (fun a _ => by simp [claimsB])
      rw [hfil]
    · have hklt : k < t := by
        simp only [List.length_append, List.length_singleton] at hk
        omega
      rw [List.getD_append _ _ _ _ (by rw [hacclen]; exact hklt)]
      rw [hsget k (by rw [h1len]; exact hklt), h2get k hklt]
      rw [loadExpected, loadExpected, hgetat, if_neg hkt]
      have hdropapp : (processed ++ [img]).drop (k + 1) = processed.drop (k + 1) ++ [img] :=
        List.drop_append_of_le_length (by omega)
      rw [hdropapp]
      have hrk : (recomputeDigests (processed.getD k emptyImage)).isOk = true :=
        h0 _ (getD_mem_of_lt hklt)
      have hbn : (loadedRecOf rw (processed.getD k emptyImage)).Names =
          (processed.getD k emptyImage).Names := loadedRecOf_names rw _ hrk
      rw [List.filter_filter]
      have hNames : (loadedRecOf rw (processed.getD k emptyImage)).Names.filter
          (fun m => !(decide (m ∈ img.Names) && decide (lookupA s.posOf m = some k)) &&
            !claimsB (processed.drop (k + 1)) m) =
          (loadedRecOf rw (processed.getD k emptyImage)).Names.filter
            (fun m => !claimsB (processed.drop (k + 1) ++ [img]) m) := by
        refine List.filter_congr ?_
        intro m hm
        rw [claimsB_append]
        rcases hco : claimsB (processed.drop (k + 1)) m with _ | _
        · simp only [Bool.not_false, Bool.and_true, Bool.false_or]
          by_cases hmi : m ∈ img.Names
          · have hpos : lookupA s.posOf m = some k := by
              refine (h3pos m k).mpr ⟨hklt, ?_, ?_⟩
              · rw [← hbn]
                exact hm
              · intro j hkj hjt hmj
                have := claimsB_drop_of_getD processed (k + 1) j hkj hjt m hmj
                rw [hco] at this
                exact Bool.noConfusion this
            simp [hmi, hpos]
          · simp [hmi]
        · simp
      rw [hNames]
  · -- the name registry
    intro x k'
    have hfold : lookupA (img.Names.foldl (fun m n => insertA m n
        (stripConflicts s.posOf img.Names s.acc s.shouldSave).1.length) s.posOf) x =
        if x ∈ img.Names then some t else lookupA s.posOf x := by
      rw [lookupA_foldl_insertA, hacclen]
    rw [hfold]
    have hlen' : (processed ++ [img]).length = t + 1 := by simp
    have hgetlast : (processed ++ [img]).getD t emptyImage = img := by
      rw [List.getD_append_right _ _ _ _ (le_refl _)]
      simp
    by_cases hx : x ∈ img.Names
    · rw [if_pos hx]
      constructor
      · intro hsome
        obtain rfl : k' = t := by
          injection hsome with hv
          exact hv.symm
        refine ⟨by omega, by rw [hgetlast]; exact hx, ?_⟩
        intro j hkj hjl
        rw [hlen'] at hjl
        omega
      · rintro ⟨hk'len, hxk', hnolater⟩
        rw [hlen'] at hk'len
        by_cases hk't : k' = t
        · rw [hk't]
        · exfalso
          have hk'lt : k' < t := by omega
          exact hnolater t hk'lt (by omega) (by rw [hgetlast]; exact hx)
    · rw [if_neg hx]
      rw [h3pos x k']
      constructor
      · rintro ⟨hk'len, hxk', hnolater⟩
        refine ⟨by rw [hlen']; omega, ?_, ?_⟩
        · rw [List.getD_append _ _ _ _ hk'len]
          exact hxk'
        · intro j hkj hjl
          rw [hlen'] at hjl
          by_cases hjt : j = t
          · subst hjt
            rw [hgetlast]
            exact hx
          · rw [List.getD_append _ _ _ _ (by omega)]
            exact hnolater j hkj (by omega)
      · rintro ⟨hk'len, hxk', hnolater⟩
        rw [hlen'] at hk'len
        have hk'lt : k' < t := by
          by_cases hk't : k' = t
          · subst hk't
            rw [hgetlast] at hxk'
            exact absurd hxk' hx
          · omega
        refine ⟨hk'lt, ?_, ?_⟩
        · rw [List.getD_append _ _ _ _ hk'lt] at hxk'
          exact hxk'
        · intro j hkj hjt
          have := hnolater j hkj (by omega)
          rw [List.getD_append _ _ _ _ hjt] at this
          exact this
  · -- the some-ness of the registry matches claims
    intro x
    have hfold : lookupA (img.Names.foldl (fun m n => insertA m n
        (stripConflicts s.posOf img.Names s.acc s.shouldSave).1.length) s.posOf) x =
        if x ∈ img.Names then some t else lookupA s.posOf x := by
      rw [lookupA_foldl_insertA, hacclen]
    rw [hfold, claimsB_append]
    by_cases hx : x ∈ img.Names
    · simp [hx]
    · rw [if_neg hx, h4some x]
      simp [hx]
  · -- the resave flag
    rw [hssave]
    rw [Bool.or_eq_true, dupNameExists_append, h5save, List.any_eq_true]
    constructor
    · rintro (hd | ⟨n, hn, hsome⟩)
      · exact Or.inl hd
      · rw [h4some n] at hsome
        exact Or.inr ⟨n, hn, hsome⟩
    · rintro (hd | ⟨n, hn, hcl⟩)
      · exact Or.inl hd
      · refine Or.inr ⟨n, hn, ?_⟩
        rw [h4some n]
        exact hcl

theorem loadAux_inv (rw : Bool) :
    ∀ (rest processed : List Image) (s : LoadState),
      (∀ img ∈ rest, (recomputeDigests img).isOk = true) →
      loadInv processed rw s →
      ∃ s2, loadAux rw rest s = .ok s2 ∧ loadInv (processed ++ rest) rw s2
  | [], processed, s, _, hinv => ⟨s, rfl, by simpa using hinv⟩
  | img :: rest, processed, s, hrec, hinv => by
    obtain ⟨s2, hstep, hinv2⟩ :=
      loadStep_inv rw processed s img (hrec img (List.mem_cons_self _ _)) hinv
    obtain ⟨s3, haux, hinv3⟩ := loadAux_inv rw rest (processed ++ [img]) s2
      (fun i hi => hrec i (List.mem_cons_of_mem _ hi)) hinv2
    refine ⟨s3, ?_, ?_⟩
    · rw [loadAux, hstep]
      exact haux
    · have : processed ++ img :: rest = (processed ++ [img]) ++ rest := by
        rw [List.append_assoc]
        rfl
      rw [this]
      exact hinv3

theorem loadInv_nil (rw : Bool) : loadInv [] rw ⟨[], [], false⟩ := by
  refine ⟨fun img hm => absurd hm (List.not_mem_nil _), rfl,
    fun k hk => absurd hk (by simp), fun n k => ?_, fun n => rfl, ?_⟩
  · constructor
    · intro h
      exact absurd h (by simp [lookupA])
    · rintro ⟨hk, -, -⟩
      exact absurd hk (by simp)
  · constructor
    · intro h
      exact Bool.noConfusion h
    · intro h
      simp [dupNameExists] at h

theorem not_dupNameExists_of_pairwise :
    ∀ (l : List Image), l.Pairwise (fun a b => ∀ n ∈ a.Names, n ∉ b.Names) →
      ¬ dupNameExists l
  | [], _, h => h
  | a :: rest, hp, h => by
    rcases h with ⟨n, hn, hc⟩ | h
    · obtain ⟨img, hm, hn2⟩ := claimsB_eq_true.mp hc
      exact (List.rel_of_pairwise_cons hp hm) n hn hn2
    · exact not_dupNameExists_of_pairwise rest hp.of_cons h

/-- C2: when two records of the persisted snapshot claim the same name,
`Load` keeps the name on the later record and strips it from the earlier
one, reporting that a resave is needed (and performing it in a writable
locked session); in a session that is read-only or not locked for writing
it instead fails with `ErrDuplicateImageNames`. -/
theorem load_name_conflict (snap : List Image) (i j : Nat) (n : String)
    (hij : i < j) (hjlen : j < snap.length)
    (hni : n ∈ (snap.getD i emptyImage).Names)
    (hnj : n ∈ (snap.getD j emptyImage).Names)
    (hlater : claimsB (snap.drop (j + 1)) n = false)
    (hall : ∀ img ∈ snap, (recomputeDigests img).isOk = true) :
    (Load snap true true).isOk = true ∧
    loadedResaved (Load snap true true) = true ∧
    n ∉ ((loadedImages (Load snap true true)).getD i emptyImage).Names ∧
    n ∈ ((loadedImages (Load snap true true)).getD j emptyImage).Names ∧
    (∀ rw2 locked2 : Bool, (rw2 && locked2) = false →
      Load snap rw2 locked2 = .error .duplicateImageNames) := by
  have hilen : i < snap.length := lt_trans hij hjlen
  have hdup : dupNameExists snap :=
    dupNameExists_of_claim snap i hilen n hni
      (claimsB_drop_of_getD snap (i + 1) j hij hjlen n hnj)
  obtain ⟨s2, haux, hinv2⟩ :=
    loadAux_inv true snap [] ⟨[], [], false⟩ hall (loadInv_nil true)
  rw [List.nil_append] at hinv2
  obtain ⟨-, hlen2, hget2, -, -, hsave2⟩ := hinv2
  have hss2 : s2.shouldSave = true := hsave2.mpr hdup
  have hload : Load snap true true = .ok
      ({ images := s2.acc
         idindex := s2.acc.foldl (fun ids img => truncAdd ids img.ID) []
         byid := s2.acc.map Image.ID
         byname := s2.posOf.map (fun p => (p.1, (s2.acc.getD p.2 emptyImage).ID))
         bydigest := buildByDigest s2.acc
         rw := true, locked := true }, true) := by
    rw [Load, haux]
    dsimp only
    rw [hss2]
    rfl
  have hexpNames : ∀ k, (loadExpected snap true k).Names =
      (loadedRecOf true (snap.getD k emptyImage)).Names.filter
        (fun m => !claimsB (snap.drop (k + 1)) m) := fun k => rfl
  have hclaimI : claimsB (snap.drop (i + 1)) n = true :=
    claimsB_drop_of_getD snap (i + 1) j hij hjlen n hnj
  refine ⟨?_, ?_, ?_, ?_, ?_⟩
  · rw [hload]
    rfl
  · rw [hload]
    rfl
  · rw [hload]
    show n ∉ (s2.acc.getD i emptyImage).Names
    rw [hget2 i hilen, hexpNames i]
    intro hmem
    have hpred := (List.mem_filter.mp hmem).2
    rw [hclaimI] at hpred
    exact Bool.noConfusion hpred
  · rw [hload]
    show n ∈ (s2.acc.getD j emptyImage).Names
    rw [hget2 j hjlen, hexpNames j]
    refine List.mem_filter.mpr ⟨?_, ?_⟩
    · rw [loadedRecOf_names true _ (hall _ (getD_mem_of_lt hjlen))]
      exact hnj
    · show (!claimsB (snap.drop (j + 1)) n) = true
      rw [hlater]
      rfl
  · intro rw2 locked2 hrl
    obtain ⟨s3, haux3, hinv3⟩ :=
      loadAux_inv rw2 snap [] ⟨[], [], false⟩ hall (loadInv_nil rw2)
    rw [List.nil_append] at hinv3
    have hss3 : s3.shouldSave = true := hinv3.2.2.2.2.2.mpr hdup
    rw [Load, haux3]
    dsimp only
    rw [hss3, hrl]
    rfl

/-- Witness for C2 at a concrete two-record snapshot sharing the name
`localhost/dup`: the writable locked load succeeds and resaves with the
name moved to the second record, the read-only load fails. -/
theorem load_name_conflict_witness :
    (Load [imgL1, imgL2] true true).isOk = true ∧
    loadedResaved (Load [imgL1, imgL2] true true) = true ∧
    "localhost/dup" ∉ ((loadedImages (Load [imgL1, imgL2] true true)).getD 0 emptyImage).Names ∧
    "localhost/dup" ∈ ((loadedImages (Load [imgL1, imgL2] true true)).getD 1 emptyImage).Names ∧
    Load [imgL1, imgL2] false false = .error .duplicateImageNames := by
  obtain ⟨h1, h2, h3, h4, h5⟩ :=
    load_name_conflict [imgL1, imgL2] 0 1 "localhost/dup" (by decide) (by decide)
      (by decide) (by decide) (by decide) (by decide)
  exact ⟨h1, h2, h3, h4, h5 false false (by decide)⟩

/-- C8: for every well-formed writable locked store, `Save` serializes the
ordered record list (dropping the untagged `Digests` and `ReadOnly`
fields) and loading that document back, in a session of either access
mode, succeeds without a resave and reconstructs the records exactly —
same ID, Names, Digests and every other field — except that `ReadOnly` is
derived from the loading session's access mode. -/
theorem save_load_round_trip (st : ImageStore) (hwf : wellFormed st)
    (hrw : st.rw = true) (hlk : st.locked = true) :
    saveSnapshot st = .ok (st.images.map serializeImage) ∧
    ∀ rw2 locked2 : Bool,
      (Load (st.images.map serializeImage) rw2 locked2).isOk = true ∧
      loadedResaved (Load (st.images.map serializeImage) rw2 locked2) = false ∧
      loadedImages (Load (st.images.map serializeImage) rw2 locked2) =
        st.images.map (fun i => { i with ReadOnly := !rw2 }) := by
  obtain ⟨h1, h2, h3, h4, h5, h6, h7, h8, h9, h10⟩ := hwf
  have hPID : st.images.Pairwise (fun a b => a.ID ≠ b.ID) := by
    rw [List.Nodup, List.pairwise_map] at h1
    exact h1
  have hdisj : st.images.Pairwise (fun a b => ∀ n ∈ a.Names, n ∉ b.Names) := by
    refine hPID.imp_of_mem ?_
    intro a b ha hb hne n hna hnb
    have hla := h7 a ha n hna
    have hlb := h7 b hb n hnb
    rw [hla] at hlb
    exact hne (Option.some.inj hlb)
  have hser : ∀ img ∈ st.images,
      recomputeDigests (serializeImage img) = .ok { img with ReadOnly := false } := by
    intro img hm
    have hfix := h10 img hm
    rw [recomputeDigests] at hfix
    rcases hc : recomputeCore img.Digest img.BigDataDigests with e | p
    · rw [hc] at hfix
      exact absurd hfix (by simp)
    · obtain ⟨d, ds⟩ := p
      rw [hc] at hfix
      have hrec := Except.ok.inj hfix
      have hd : d = img.Digest := congrArg Image.Digest hrec
      have hds : ds = img.Digests := congrArg Image.Digests hrec
      subst hd
      subst hds
      have hc2 : recomputeCore (serializeImage img).Digest (serializeImage img).BigDataDigests =
          Except.ok (img.Digest, img.Digests) := hc
      rw [recomputeDigests, hc2]
      rfl
  have hldr : ∀ (rw2 : Bool), ∀ img ∈ st.images,
      loadedRecOf rw2 (serializeImage img) = { img with ReadOnly := !rw2 } := by
    intro rw2 img hm
    rw [loadedRecOf, hser img hm]
  have hallok : ∀ img2 ∈ st.images.map serializeImage,
      (recomputeDigests img2).isOk = true := by
    intro img2 hm
    obtain ⟨img, hmi, rfl⟩ := List.mem_map.mp hm
    rw [hser img hmi]
    rfl
  have hdisjS : (st.images.map serializeImage).Pairwise
      (fun a b => ∀ n ∈ a.Names, n ∉ b.Names) := by
    rw [List.pairwise_map]
    exact hdisj
  have hnodupS : ¬ dupNameExists (st.images.map serializeImage) :=
    not_dupNameExists_of_pairwise _ hdisjS
  refine ⟨?_, ?_⟩
  · rw [saveSnapshot, hrw, hlk]
    simp
  · intro rw2 locked2
    obtain ⟨s2, haux, hinv⟩ :=
      loadAux_inv rw2 (st.images.map serializeImage) [] ⟨[], [], false⟩ hallok
        (loadInv_nil rw2)
    rw [List.nil_append] at hinv
    obtain ⟨-, hlen2, hget2, -, -, hsave2⟩ := hinv
    have hss : s2.shouldSave = false := by
      rcases hb : s2.shouldSave with _ | _
      · rfl
      · exact absurd (hsave2.mp hb) hnodupS
    have hacc : s2.acc = st.images.map (fun i => { i with ReadOnly := !rw2 }) := by
      apply List.ext_getElem
      · rw [hlen2]
        simp
      · intro k hk1 hk2
        have hkimg : k < st.images.length := by simpa using hk2
        have hksnap : k < (st.images.map serializeImage).length := by simpa using hkimg
        have hgd := hget2 k (by simpa using hkimg)
        rw [List.getD_eq_getElem _ _ hk1] at hgd
        rw [hgd, List.getElem_map]
        rw [loadExpected]
        have hgk : (st.images.map serializeImage).getD k emptyImage =
            serializeImage (st.images.getD k emptyImage) := by
          rw [List.getD_eq_getElem _ _ hksnap, List.getD_eq_getElem _ _ hkimg,
            List.getElem_map]
        have hmemk : st.images.getD k emptyImage ∈ st.images := getD_mem_of_lt hkimg
        rw [hgk, hldr rw2 _ hmemk]
        have hfil : (({ st.images.getD k emptyImage with ReadOnly := !rw2 } : Image)).Names.filter
            (fun m => !claimsB ((st.images.map serializeImage).drop (k + 1)) m) =
            ({ st.images.getD k emptyImage with ReadOnly := !rw2 } : Image).Names := by
          refine List.filter_eq_self.mpr ?_
          intro m hn
          have hclaims : claimsB ((st.images.map serializeImage).drop (k + 1)) m = false := by
            apply claimsB_drop_eq_false
            intro j hj1 hj2
            have hjimg : j < st.images.length := by simpa using hj2
            rw [List.getD_eq_getElem _ _ hj2, List.getElem_map]
            have hrel := (List.pairwise_iff_getElem.mp hdisj) k j hkimg hjimg hj1
            have hmn : m ∈ (st.images.getD k emptyImage).Names := hn
            rw [List.getD_eq_getElem _ _ hkimg] at hmn
            exact hrel m hmn
          rw [hclaims]
          rfl
        rw [hfil]
        rw [List.getD_eq_getElem _ _ hkimg]
    have hload : Load (st.images.map serializeImage) rw2 locked2 = .ok
        ({ images := s2.acc
           idindex := s2.acc.foldl (fun ids img => truncAdd ids img.ID) []
           byid := s2.acc.map Image.ID
           byname := s2.posOf.map (fun p => (p.1, (s2.acc.getD p.2 emptyImage).ID))
           bydigest := buildByDigest s2.acc
           rw := rw2, locked := locked2 }, false) := by
      rw [Load, haux]
      dsimp only
      rw [hss]
      rfl
    refine ⟨?_, ?_, ?_⟩
    · rw [hload]
      rfl
    · rw [hload]
      rfl
    · rw [hload]
      exact hacc

/-- Witness for C8 at the concrete well-formed store `wStore`, reloading
its serialized snapshot in a read-only session. -/
theorem save_load_round_trip_witness :
    saveSnapshot wStore = .ok (wStore.images.map serializeImage) ∧
    (Load (wStore.images.map serializeImage) false true).isOk = true ∧
    loadedResaved (Load (wStore.images.map serializeImage) false true) = false ∧
    loadedImages (Load (wStore.images.map serializeImage) false true) =
      wStore.images.map (fun i => { i with ReadOnly := !false }) := by
  obtain ⟨hsave, hrest⟩ := save_load_round_trip wStore (by decide) (by decide) (by decide)
  obtain ⟨h3, h4, h5⟩ := hrest false true
  exact ⟨hsave, h3, h4, h5⟩

end ContainersStorage
